import Mathlib

/-!
# Distiller controller: PID loop, settings/command decoder, flow meter

A shallow embedding of `src/main/controller.c`, `src/main/messages.c`,
`src/main/sensors.c` and the command branch of `src/main/webServer.c`.

Modelling conventions

* `float` and `double` values are exact rationals (`ℚ`); rounding is outside
  the model. A floating-point division whose divisor is zero has no rational
  value and is returned as `none`. Where an infinity or NaN decides a claim,
  `control_loop` is taken over the type `FP`, which adds them to the finite
  values; on finite values the two readings agree
  (`control_loop_iterF_toF`).
* A C string is the list of its characters before the terminating NUL. A
  pointer into a buffer is the list of the bytes from that pointer to the end
  of the allocation, terminator included. Reading or writing outside an
  allocation, or through a null pointer, is undefined behaviour in C and is
  returned as a `Fault`.
* One pass through the body of a `while (1)` task loop is one step function;
  the values a pass obtains from other tasks (queue receives, timer reads) are
  its inputs.
-/

namespace Distiller

/-! ## controller.c -/

/-- The macro `SENSOR_MIN_OUTPUT` of controller.c. -/
def SENSOR_MIN_OUTPUT : ℚ := 1350

/-- The macro `SENSOR_MAX_OUTPUT` of controller.c. -/
def SENSOR_MAX_OUTPUT : ℚ := 8190

/-- The struct `Data` (the controller settings): four float fields. -/
structure Data where
  setpoint : ℚ
  P_gain : ℚ
  I_gain : ℚ
  D_gain : ℚ
deriving DecidableEq

/-- The compiled-in initial value of the static `controllerSettings`. -/
def defaultSettings : Data :=
  { setpoint := 50, P_gain := 45, I_gain := 10, D_gain := 300 }

/-- The variables that live across iterations of `control_loop`: the file
statics `controllerSettings` and `flushSystem`, the function static `output`,
the locals `last_error` and `integral` declared before the loop, the pending
elements of `dataQueue`, and the cached `temp` statics of `get_hot_temp` and
`get_cold_temp`. -/
structure CtrlState where
  controllerSettings : Data
  flushSystem : Bool
  output : ℚ
  last_error : ℚ
  integral : ℚ
  dataQueue : List Data
  hotCache : ℚ
  coldCache : ℚ

/-- The state in which `control_loop` enters its loop after `controller_init`
with nothing stored in NVS: default settings, flush off, `output`,
`last_error`, `integral` and the temperature caches all zero, empty queue. -/
def initState : CtrlState :=
  { controllerSettings := defaultSettings, flushSystem := false, output := 0,
    last_error := 0, integral := 0, dataQueue := [], hotCache := 0, coldCache := 0 }

/-- The body of `get_hot_temp` / `get_cold_temp`: `recv` is what `xQueueReceive`
delivered (`none` on timeout); a delivered value replaces the cached one. -/
def get_temp (cache : ℚ) (recv : Option ℚ) : ℚ :=
  match recv with
  | some new_temp => new_temp
  | none => cache

/-- Lines 122-126 of `control_loop`: when `dataQueue` holds a message, the
oldest one is received into `controllerSettings`. -/
def recvSettings (s : CtrlState) : CtrlState :=
  match s.dataQueue with
  | [] => s
  | d :: rest => { s with controllerSettings := d, dataQueue := rest }

/-- The anti-windup branch of `control_loop` (lines 136-142): the new value of
`integral`, given the `output` left by the previous iteration. -/
def integrate (output error integral : ℚ) : ℚ :=
  if output > SENSOR_MAX_OUTPUT - 1 ∧ error > 0 then integral + 0
  else if output < SENSOR_MIN_OUTPUT + 1 ∧ error < 0 then integral + 0
  else integral + error * (1 / 10)

/-- The "Clip output" statement of `control_loop` (lines 147-151), for a
finite `output`; `clipF` is the same statement for an `output` that may be an
infinity or NaN. -/
def clip (output : ℚ) : ℚ :=
  if output < SENSOR_MIN_OUTPUT then SENSOR_MIN_OUTPUT
  else if output > SENSOR_MAX_OUTPUT then SENSOR_MAX_OUTPUT
  else output

/-- The locals of one iteration of `control_loop` that the claims speak of. -/
structure IterTrace where
  error : ℚ
  derivative : ℚ
  /-- The value of `output` right after line 144, before clipping. -/
  pid : ℚ
  /-- The argument of `set_motor_speed`. -/
  emitted : ℚ

/-- One pass through the body of the `while(1)` loop of `control_loop`.
`coldRecv` and `hotRecv` are what the two temperature queues deliver. Returns
the state after the pass and the locals of the pass. -/
def control_loop_iter (s : CtrlState) (coldRecv hotRecv : Option ℚ) :
    CtrlState × IterTrace :=
  let s1 := recvSettings s
  let coldTemp := get_temp s1.coldCache coldRecv
  let hotTemp := get_temp s1.hotCache hotRecv
  let _deltaT := hotTemp - coldTemp
  let error := hotTemp - s1.controllerSettings.setpoint
  let derivative := (error - s1.last_error) / (2 / 10)
  let integral := integrate s1.output error s1.integral
  let pid := s1.controllerSettings.P_gain * error
    + s1.controllerSettings.D_gain * derivative
    + s1.controllerSettings.I_gain * integral
  let clipped := clip pid
  let output := if s1.flushSystem then 5000 else clipped
  ({ s1 with output := output, last_error := error, integral := integral,
             hotCache := hotTemp, coldCache := coldTemp },
   { error := error, derivative := derivative, pid := pid, emitted := output })

/-- The function `setFlush`. -/
def setFlush (s : CtrlState) (state : Bool) : CtrlState :=
  { s with flushSystem := state }

/-- The call `xQueueSend(dataQueue, data, 50)` of `myWebsocketRecv`; the queue
was created with room for 2 elements, and a send to a full queue times out
without storing anything. -/
def sendSettings (s : CtrlState) (d : Data) : CtrlState :=
  if s.dataQueue.length < 2 then { s with dataQueue := s.dataQueue ++ [d] } else s

/-- What can happen to the controller: another task queues a settings update or
calls `setFlush`, or the control task runs one iteration. -/
inductive Event where
  | settings (d : Data)
  | flush (state : Bool)
  | iterate (coldRecv hotRecv : Option ℚ)

/-- Runs a sequence of events; returns the final state and the arguments of
the calls of `set_motor_speed`, oldest first. -/
def run : CtrlState → List Event → CtrlState × List ℚ
  | s, [] => (s, [])
  | s, Event.settings d :: es => run (sendSettings s d) es
  | s, Event.flush b :: es => run (setFlush s b) es
  | s, Event.iterate c h :: es =>
    let r := control_loop_iter s c h
    let rest := run r.1 es
    (rest.1, r.2.emitted :: rest.2)

/-- The clamp of the specification: `x` limited to the closed range
`[lo, hi]`. -/
def clamp (x lo hi : ℚ) : ℚ := max lo (min x hi)

/-- The PID sum of the specification, `P·error + D·derivative + I·integral`. -/
def pidSum (d : Data) (error derivative integral : ℚ) : ℚ :=
  d.P_gain * error + d.D_gain * derivative + d.I_gain * integral

/-- A run of events during which every iteration of `control_loop` starts with
the stored `output` equal to `out` and computes an error for which `sign`
holds. -/
def Pinned (out : ℚ) (sign : ℚ → Prop) : CtrlState → List Event → Prop
  | _, [] => True
  | s, Event.settings d :: es => Pinned out sign (sendSettings s d) es
  | s, Event.flush b :: es => Pinned out sign (setFlush s b) es
  | s, Event.iterate c h :: es =>
    s.output = out ∧ sign (control_loop_iter s c h).2.error
      ∧ Pinned out sign (control_loop_iter s c h).1 es

/-- An event that is not a call of `setFlush`. -/
def Event.keepsFlush : Event → Bool
  | Event.flush _ => false
  | _ => true

/-! ## messages.c -/

/-- The string terminator, the character with code 0. -/
def NUL : Char := Char.ofNat 0

/-- The macro `MAX_KEY_LEN` of messages.c. -/
def MAX_KEY_LEN : Nat := 10

/-- The macro `MAX_VALUE_LEN` of messages.c. -/
def MAX_VALUE_LEN : Nat := 5

/-- Undefined behaviour the decoder can run into. -/
inductive Fault where
  /-- A read past the last byte of the packet buffer. -/
  | oobRead
  /-- A write outside the `MAX_KEY_LEN` bytes allocated for `name`. -/
  | keyOverflow
  /-- A write outside the `MAX_VALUE_LEN` bytes of `valueBuf`. -/
  | valueOverflow
  /-- A null pointer handed to `strncpy`. -/
  | nullDeref
  /-- The step budget of the model ran out (never the case, see
  `parseMessage`). -/
  | outOfFuel
deriving DecidableEq

/-- The C string a pointer points to: the bytes before the first NUL. -/
def cstr (p : List Char) : List Char := p.takeWhile (fun c => c ≠ NUL)

/-- The libc function `strlen`. -/
def strlen (p : List Char) : Nat := (cstr p).length

/-- First half of libc `strtok`: step over leading delimiter bytes. -/
def skipDelims (delim : List Char) : List Char → List Char
  | [] => []
  | c :: rest => if c ∈ delim then skipDelims delim rest else c :: rest

/-- Second half of libc `strtok`, from the first byte of a token: walk to the
first delimiter or NUL. A delimiter is overwritten with NUL and the saved
pointer is put behind it; at a NUL the saved pointer stays on the NUL. Returns
the buffer as seen from the token start after the overwrite, and the saved
pointer. -/
def splitToken (delim : List Char) : List Char → List Char × List Char
  | [] => ([], [])
  | c :: rest =>
    if c = NUL then (c :: rest, c :: rest)
    else if c ∈ delim then (NUL :: rest, rest)
    else ((c :: (splitToken delim rest).1), (splitToken delim rest).2)

/-- The libc function `strtok`, with its hidden saved pointer made explicit:
`p` is the first argument of a first call, or the saved pointer of the call
before when the first argument is `NULL`. Returns the token pointer (`none` for
`NULL`) and the new saved pointer. Every buffer handed in ends in NUL, so the
empty-list cases are never reached. -/
def strtok (delim : List Char) (p : List Char) : Option (List Char) × List Char :=
  match skipDelims delim p with
  | [] => (none, [])
  | c :: rest =>
    if c = NUL then (none, c :: rest)
    else (some (splitToken delim (c :: rest)).1, (splitToken delim (c :: rest)).2)

/-- The libc test `isspace` in the "C" locale. -/
def isspace (c : Char) : Bool :=
  c = ' ' ∨ c = '\t' ∨ c = '\n' ∨ c = Char.ofNat 11 ∨ c = Char.ofNat 12 ∨ c = '\r'

/-- Reads a run of decimal digits: `acc` is the number read so far and `n` the
count of digits read; returns both and the unread rest. -/
def readDigits : List Char → Nat → Nat → Nat × Nat × List Char
  | [], acc, n => (acc, n, [])
  | c :: rest, acc, n =>
    if c.isDigit then readDigits rest (10 * acc + (c.toNat - 48)) (n + 1)
    else (acc, n, c :: rest)

/-- What a decimal floating-point text denotes: sign, the digits of integer
and fraction part read as one number, the count of fraction digits, and the
exponent. -/
structure Decimal where
  neg : Bool
  mantissa : Nat
  fracDigits : Nat
  exponent : Int
deriving DecidableEq

/-- The optional exponent part `e[+-]ddd` of a decimal text; it counts only
when at least one digit follows. -/
def readExponent : List Char → Int
  | [] => 0
  | c :: rest =>
    if c = 'e' ∨ c = 'E' then
      match rest with
      | [] => 0
      | s :: rest2 =>
        if s = '-' then
          (if (readDigits rest2 0 0).2.1 = 0 then 0 else - ((readDigits rest2 0 0).1 : Int))
        else if s = '+' then ((readDigits rest2 0 0).1 : Int)
        else ((readDigits (s :: rest2) 0 0).1 : Int)
    else 0

/-- The integer part, optional `.` and fraction part, and exponent of a decimal
text whose white space and sign have been read. Without any digit nothing is
converted and the result is zero. -/
def readNumber (neg : Bool) (s : List Char) : Decimal :=
  let ip := readDigits s 0 0
  match ip.2.2 with
  | c :: rest =>
    if c = '.' then
      let fp := readDigits rest ip.1 0
      if ip.2.1 + fp.2.1 = 0 then ⟨false, 0, 0, 0⟩
      else ⟨neg, fp.1, fp.2.1, readExponent fp.2.2⟩
    else if ip.2.1 = 0 then ⟨false, 0, 0, 0⟩
    else ⟨neg, ip.1, 0, readExponent (c :: rest)⟩
  | [] => if ip.2.1 = 0 then ⟨false, 0, 0, 0⟩ else ⟨neg, ip.1, 0, 0⟩

/-- The decimal forms libc `strtod` accepts at the start of a string: white
space, an optional sign, digits with an optional `.`, an optional exponent.
The hexadecimal, `inf` and `nan` forms are outside the model. -/
def strtodDecimal (s : List Char) : Decimal :=
  match s.dropWhile isspace with
  | [] => ⟨false, 0, 0, 0⟩
  | c :: rest =>
    if c = '-' then readNumber true rest
    else if c = '+' then readNumber false rest
    else readNumber false (c :: rest)

/-- The rational number a `Decimal` stands for. -/
def Decimal.toRat (d : Decimal) : ℚ :=
  (if d.neg then -1 else 1) * (d.mantissa : ℚ) / (10 : ℚ) ^ d.fracDigits
    * (10 : ℚ) ^ d.exponent

/-- The libc function `atof` on the C string `s`, for decimal text. -/
def atof (s : List Char) : ℚ := (strtodDecimal s).toRat

/-- The struct `Message` without its `next` pointer; a linked list of messages
is a `List Message`. `key` is the C string in the `name` buffer. -/
structure Message where
  key : List Char
  value : ℚ
deriving DecidableEq

/-- The first loop of `processPair`: copies bytes into `name` up to the first
`:`, then stores the terminator. `i` is the write index; each write needs
`i < MAX_KEY_LEN`. Returns the bytes stored before the terminator and the
pointer behind the `:`. -/
def readKey : List Char → Nat → Except Fault (List Char × List Char)
  | [], _ => .error .oobRead
  | c :: rest, i =>
    if c ≠ ':' then
      if i < MAX_KEY_LEN then
        match readKey rest (i + 1) with
        | .ok r => .ok (c :: r.1, r.2)
        | .error e => .error e
      else .error .keyOverflow
    else if i < MAX_KEY_LEN then .ok ([], rest)
    else .error .keyOverflow

/-- The second loop of `processPair`: copies bytes into `valueBuf` up to the
NUL, then stores the terminator. `i` is the write index; each write needs
`i < MAX_VALUE_LEN`. Returns the bytes stored before the terminator. -/
def readValue : List Char → Nat → Except Fault (List Char)
  | [], _ => .error .oobRead
  | c :: rest, i =>
    if c ≠ NUL then
      if i < MAX_VALUE_LEN then
        match readValue rest (i + 1) with
        | .ok r => .ok (c :: r)
        | .error e => .error e
      else .error .valueOverflow
    else if i < MAX_VALUE_LEN then .ok []
    else .error .valueOverflow

/-- The function `processPair`. -/
def processPair (pair : List Char) : Except Fault Message :=
  match readKey pair 0 with
  | .error e => .error e
  | .ok (name, pair2) =>
    match readValue pair2 0 with
    | .error e => .error e
    | .ok valueBuf => .ok { key := cstr name, value := atof valueBuf }

/-- The `while (pair != NULL)` loop of `parseMessage`: `pair` is the current
token, `saved` the saved pointer of `strtok`. Each pass moves `saved` forward,
so a budget of the buffer length is never used up. -/
def parseLoop : Nat → Option (List Char) → List Char → Except Fault (List Message)
  | _, none, _ => .ok []
  | 0, some _, _ => .error .outOfFuel
  | fuel + 1, some pair, saved =>
    match processPair pair with
    | .error e => .error e
    | .ok m =>
      match parseLoop fuel (strtok [','] saved).1 (strtok [','] saved).2 with
      | .error e => .error e
      | .ok ms => .ok (m :: ms)

/-- The function `parseMessage`; the result is the linked list from `head`
on (`[]` for `NULL`). The parameter `len` is not used by the code. -/
def parseMessage (dataPacket : List Char) (_len : Nat) : Except Fault (List Message) :=
  parseLoop (dataPacket.length + 1) (strtok [','] dataPacket).1 (strtok [','] dataPacket).2

/-- The test `strncmp(a, b, n) == 0` on two C strings. -/
def strncmpEq (a b : List Char) (n : Nat) : Bool := a.take n == b.take n

/-- The function `findByKey`. -/
def findByKey : List Message → List Char → ℚ
  | [], _ => 0
  | m :: rest, key => if strncmpEq key m.key MAX_KEY_LEN then m.value else findByKey rest key

/-- The function `decode_data`; `dataPacket` is the buffer from the pointer
on. `none` is the null pointer returned when no message was read. -/
def decode_data (dataPacket : List Char) : Except Fault (Option Data) :=
  let len := (strlen dataPacket + 65536 - 1) % 65536
  match parseMessage dataPacket len with
  | .error e => .error e
  | .ok [] => .ok none
  | .ok (m :: ms) =>
    .ok (some { setpoint := findByKey (m :: ms) "setpoint".toList,
                P_gain := findByKey (m :: ms) "P".toList,
                I_gain := findByKey (m :: ms) "I".toList,
                D_gain := findByKey (m :: ms) "D".toList })

/-- The struct `Cmd_t`: the `CMD_LEN` bytes of `cmd` and the `ARG_LEN` bytes
of `arg`. -/
structure Cmd_t where
  cmd : List Char
  arg : List Char
deriving DecidableEq

/-- The libc function `strncpy(dest, src, n)`: the `n` bytes stored in `dest`.
Bytes of `src` are copied up to its NUL and the rest is filled with NUL. -/
def strncpy : List Char → Nat → Except Fault (List Char)
  | _, 0 => .ok []
  | [], _ + 1 => .error .oobRead
  | c :: rest, n + 1 =>
    if c = NUL then .ok (List.replicate (n + 1) NUL)
    else
      match strncpy rest n with
      | .ok r => .ok (c :: r)
      | .error e => .error e

/-- The call of `strncpy` with a source pointer that may be `NULL`. -/
def strncpyPtr (src : Option (List Char)) (n : Nat) : Except Fault (List Char) :=
  match src with
  | none => .error .nullDeref
  | some p => strncpy p n

/-- The function `decodeCommand`. `CMD_LEN` and `ARG_LEN` are macros of
messages.h. -/
def decodeCommand (CMD_LEN ARG_LEN : Nat) (commandPacket : List Char) :
    Except Fault Cmd_t :=
  let command := strtok [':'] commandPacket
  let arg := strtok ['&', '\n'] command.2
  match strncpyPtr command.1 CMD_LEN with
  | .error e => .error e
  | .ok c =>
    match strncpyPtr arg.1 ARG_LEN with
    | .error e => .error e
    | .ok a => .ok { cmd := c, arg := a }

/-! ## webServer.c -/

/-- What the `CMD` branch of `myWebsocketRecv` does with a decoded command. -/
inductive Dispatch where
  /-- The task `ota_update_task` is started with this address. -/
  | ota (ip : List Char)
  /-- The command is sent to `cmdQueue`. -/
  | controller (cmd : Cmd_t)
deriving DecidableEq

/-- The `CMD` branch of `myWebsocketRecv` (lines 138-150), `message` being the
buffer from the pointer on. The comparison with `"OTA"` reads at most four
bytes of `cmd.cmd`; `strlen(cmd.arg)` is the length of the string in the field
when the field holds its terminator. -/
def recvCmd (CMD_LEN ARG_LEN : Nat) (message : List Char) : Except Fault Dispatch :=
  match decodeCommand CMD_LEN ARG_LEN message with
  | .error e => .error e
  | .ok cmd =>
    if strncmpEq (cstr cmd.cmd) "OTA".toList 16 then .ok (.ota (cstr cmd.arg))
    else .ok (.controller cmd)

/-! ## sensors.c -/

/-- The value of the file static `timeVal` before the first pulse: a static
without initialiser starts at zero. -/
def timeVal_init : ℚ := 0

/-- The function `flowmeter_ISR`: the new value of `timeVal` is the timer
reading, and the timer restarts from zero. Returns the new `timeVal` and the
new timer value. -/
def flowmeter_ISR (timeTemp : ℚ) : ℚ × ℚ := (timeTemp, 0)

/-- One pass through the loop of `flowmeter_task`: the value of `flowRate`
that is sent to `flowRateQueue`, for the timer reading `currTime` and the
shared `timeVal`. A zero divisor leaves no rational value. -/
def flowmeter_task_iter (currTime timeVal : ℚ) : Option ℚ :=
  if currTime > 1 then some 0
  else if timeVal * (75 / 10) = 0 then none
  else some (1 / (timeVal * (75 / 10)))

/-! ## The wire format of the specification -/

/-- The text `key:value` of one pair of a settings payload. -/
def pairText (kv : List Char × List Char) : List Char := kv.1 ++ ':' :: kv.2

/-- The settings payload of the specification: the `key:value` texts of the
pairs, separated by commas. -/
def encodePairs : List (List Char × List Char) → List Char
  | [] => []
  | [kv] => pairText kv
  | kv :: kv2 :: rest => pairText kv ++ ',' :: encodePairs (kv2 :: rest)

/-- The character of a decimal digit. -/
def digitChar (d : Fin 10) : Char := Char.ofNat (48 + d.val)

/-- A number written as decimal text: an optional minus sign, the digits of
the integer part and, when there is a decimal point, the digits behind it. -/
structure DecimalText where
  neg : Bool
  intPart : List (Fin 10)
  fracPart : Option (List (Fin 10))
deriving DecidableEq

/-- The digits behind the decimal point (none without a point). -/
def DecimalText.fracDigits (d : DecimalText) : List (Fin 10) :=
  match d.fracPart with
  | none => []
  | some f => f

/-- The characters of a decimal text. -/
def DecimalText.text (d : DecimalText) : List Char :=
  (if d.neg then ['-'] else []) ++ (d.intPart.map digitChar ++
    (match d.fracPart with
     | none => []
     | some f => '.' :: f.map digitChar))

/-- A decimal text has at least one digit. -/
def DecimalText.wellFormed (d : DecimalText) : Prop :=
  0 < d.intPart.length + d.fracDigits.length

instance (d : DecimalText) : Decidable d.wellFormed :=
  inferInstanceAs (Decidable (0 < d.intPart.length + d.fracDigits.length))

/-- The number a row of decimal digits denotes. -/
def digitsValue : List (Fin 10) → Nat
  | [] => 0
  | d :: ds => d.val * 10 ^ ds.length + digitsValue ds

/-- The number a decimal text denotes: integer part plus fraction part, with
the sign. -/
def DecimalText.value (d : DecimalText) : ℚ :=
  (if d.neg then -1 else 1) *
    ((digitsValue d.intPart : ℚ)
      + (digitsValue d.fracDigits : ℚ) / (10 : ℚ) ^ d.fracDigits.length)

/-- The settings payload that carries the given numbers under the given
keys. -/
def encodeSettings (pairs : List (List Char × DecimalText)) : List Char :=
  encodePairs (pairs.map (fun kv => (kv.1, kv.2.text)))

/-- The pairs of the payload `setpoint:72.5,P:10.0,I:2.0,D:50.0`. -/
def examplePairs : List (List Char × DecimalText) :=
  [("setpoint".toList, ⟨false, [7, 2], some [5]⟩), ("P".toList, ⟨false, [1, 0], some [0]⟩),
   ("I".toList, ⟨false, [2], some [0]⟩), ("D".toList, ⟨false, [5, 0], some [0]⟩)]

/-- The pairs of the payload `setpoint:72.5,foo:1.0,P:10.0,I:2.0,D:50.0`. -/
def examplePairsFoo : List (List Char × DecimalText) :=
  [("setpoint".toList, ⟨false, [7, 2], some [5]⟩), ("foo".toList, ⟨false, [1], some [0]⟩),
   ("P".toList, ⟨false, [1, 0], some [0]⟩),
   ("I".toList, ⟨false, [2], some [0]⟩), ("D".toList, ⟨false, [5, 0], some [0]⟩)]

/-! ## controller.c: `controller_init`, the scenario, the settings fields -/

/-- The conversion of a `double` to `uint8_t`: the fraction is discarded, and
when the integral part is not in `0..255` C leaves the behaviour undefined
(`none`). -/
def toUint8 (x : ℚ) : Option Nat :=
  if x ≤ -1 then none
  else if ⌊x⌋₊ < 256 then some ⌊x⌋₊
  else none

/-- Line 31 of `controller_init`: the value stored in the `uint8_t`
`ctrl_loop_period_ms` by `ctrl_loop_period_ms = 1.0 / frequency * 1000`, for
the `uint8_t` argument `frequency`. For `frequency` 0 the quotient has no
rational value. -/
def controller_init_period (frequency : Nat) : Option Nat :=
  if frequency = 0 then none
  else toUint8 (1 / (frequency : ℚ) * 1000)

/-- The first `n` iterations of `control_loop` from the state `s` when the
hot-side queue delivers `hot` on every iteration and the cold-side queue
nothing: the state after each iteration and its locals. -/
def iterations (hot : ℚ) : Nat → CtrlState → List (CtrlState × IterTrace)
  | 0, _ => []
  | n + 1, s =>
    control_loop_iter s none (some hot)
      :: iterations hot n (control_loop_iter s none (some hot)).1

/-- The end-to-end scenario as the specification words it, over the first six
iterations from the initial state with the hot side at 60: the error is 10
every time, the derivative is zero after the first iteration, the integral
strictly increases from each iteration to the next, and the emitted output
never decreases. -/
def ScenarioAsSpecified : Prop :=
  (∀ r ∈ iterations 60 6 initState, r.2.error = 10)
  ∧ (∀ r ∈ (iterations 60 6 initState).tail, r.2.derivative = 0)
  ∧ List.Chain' (fun a b => a < b) ((iterations 60 6 initState).map (fun r => r.1.integral))
  ∧ List.Chain' (fun a b => a ≤ b) ((iterations 60 6 initState).map (fun r => r.2.emitted))

/-- The four keys `decode_data` looks up. -/
inductive SettingKey where
  | setpoint
  | P
  | I
  | D
deriving DecidableEq

/-- The key string `decode_data` hands to `findByKey` for a field. -/
def SettingKey.name : SettingKey → List Char
  | SettingKey.setpoint => "setpoint".toList
  | SettingKey.P => "P".toList
  | SettingKey.I => "I".toList
  | SettingKey.D => "D".toList

/-- The field of `Data` that `decode_data` fills from a key. -/
def Data.field (d : Data) : SettingKey → ℚ
  | SettingKey.setpoint => d.setpoint
  | SettingKey.P => d.P_gain
  | SettingKey.I => d.I_gain
  | SettingKey.D => d.D_gain

/-! ## controller.c with the special values of floating point

The definitions above take a `float` or `double` to be a rational number. A C
floating-point variable can also hold an infinity or NaN, and the settings
that `decode_data` stores come from `atof`, which yields them for texts such
as `inf`, `nan` or `9e38`. The definitions below repeat `control_loop` over
values that include them. Finite arithmetic stays exact. -/

/-- A C floating-point value: a finite number, an infinity, or NaN. Rounding,
overflow of finite results and the sign of zero are outside the model. -/
inductive FP where
  | fin (q : ℚ)
  | pinf
  | ninf
  | nan
deriving DecidableEq

/-- Unary minus of IEEE 754. -/
def FP.neg : FP → FP
  | FP.fin q => FP.fin (-q)
  | FP.pinf => FP.ninf
  | FP.ninf => FP.pinf
  | FP.nan => FP.nan

/-- Addition of IEEE 754: NaN propagates, and the sum of opposite infinities
is NaN. -/
def FP.add : FP → FP → FP
  | FP.nan, _ => FP.nan
  | _, FP.nan => FP.nan
  | FP.fin a, FP.fin b => FP.fin (a + b)
  | FP.pinf, FP.ninf => FP.nan
  | FP.ninf, FP.pinf => FP.nan
  | FP.pinf, _ => FP.pinf
  | FP.ninf, _ => FP.ninf
  | FP.fin _, FP.pinf => FP.pinf
  | FP.fin _, FP.ninf => FP.ninf

/-- Subtraction of IEEE 754. -/
def FP.sub (a b : FP) : FP := a.add b.neg

/-- An infinity times the finite factor `q`: NaN for zero, otherwise the
infinity with the sign of the product. -/
def FP.infTimes (positive : Bool) (q : ℚ) : FP :=
  if q = 0 then FP.nan
  else if (decide (0 < q)) = positive then FP.pinf
  else FP.ninf

/-- Multiplication of IEEE 754: NaN propagates, and zero times an infinity is
NaN. -/
def FP.mul : FP → FP → FP
  | FP.nan, _ => FP.nan
  | _, FP.nan => FP.nan
  | FP.fin a, FP.fin b => FP.fin (a * b)
  | FP.fin a, FP.pinf => FP.infTimes true a
  | FP.fin a, FP.ninf => FP.infTimes false a
  | FP.pinf, FP.fin b => FP.infTimes true b
  | FP.ninf, FP.fin b => FP.infTimes false b
  | FP.pinf, FP.pinf => FP.pinf
  | FP.ninf, FP.ninf => FP.pinf
  | FP.pinf, FP.ninf => FP.ninf
  | FP.ninf, FP.pinf => FP.ninf

/-- Division of IEEE 754 by a finite divisor other than zero, the only kind
`control_loop` performs (it divides by 0.2): NaN and the infinities pass
through, with the sign of the quotient. -/
def FP.divBy (a : FP) (c : ℚ) : FP :=
  match a with
  | FP.nan => FP.nan
  | FP.fin q => FP.fin (q / c)
  | FP.pinf => if 0 < c then FP.pinf else FP.ninf
  | FP.ninf => if 0 < c then FP.ninf else FP.pinf

/-- The comparison `a < b` of C: false whenever an operand is NaN. -/
def FP.lt : FP → FP → Bool
  | FP.nan, _ => false
  | _, FP.nan => false
  | FP.fin a, FP.fin b => decide (a < b)
  | FP.ninf, FP.ninf => false
  | FP.ninf, _ => true
  | FP.pinf, _ => false
  | FP.fin _, FP.pinf => true
  | FP.fin _, FP.ninf => false

/-- The value is a number within the closed range `[lo, hi]`. -/
def FP.inRange (lo hi : ℚ) (x : FP) : Prop := ∃ q : ℚ, x = FP.fin q ∧ lo ≤ q ∧ q ≤ hi

/-- The struct `Data` with fields that may hold the special values. -/
structure DataF where
  setpoint : FP
  P_gain : FP
  I_gain : FP
  D_gain : FP

/-- The variables of `control_loop` (see `CtrlState`) with values that may be
special. -/
structure CtrlStateF where
  controllerSettings : DataF
  flushSystem : Bool
  output : FP
  last_error : FP
  integral : FP
  dataQueue : List DataF
  hotCache : FP
  coldCache : FP

/-- A settings value read as one that may be special. -/
def Data.toF (d : Data) : DataF :=
  { setpoint := FP.fin d.setpoint, P_gain := FP.fin d.P_gain, I_gain := FP.fin d.I_gain,
    D_gain := FP.fin d.D_gain }

/-- A state of finite values read as one whose values may be special. -/
def CtrlState.toF (s : CtrlState) : CtrlStateF :=
  { controllerSettings := s.controllerSettings.toF, flushSystem := s.flushSystem,
    output := FP.fin s.output, last_error := FP.fin s.last_error,
    integral := FP.fin s.integral, dataQueue := s.dataQueue.map Data.toF,
    hotCache := FP.fin s.hotCache, coldCache := FP.fin s.coldCache }

/-- The body of `get_hot_temp` / `get_cold_temp` (see `get_temp`). -/
def get_tempF (cache : FP) (recv : Option FP) : FP :=
  match recv with
  | some new_temp => new_temp
  | none => cache

/-- Lines 122-126 of `control_loop` (see `recvSettings`). -/
def recvSettingsF (s : CtrlStateF) : CtrlStateF :=
  match s.dataQueue with
  | [] => s
  | d :: rest => { s with controllerSettings := d, dataQueue := rest }

/-- The call `xQueueSend(dataQueue, data, 50)` (see `sendSettings`). -/
def sendSettingsF (s : CtrlStateF) (d : DataF) : CtrlStateF :=
  if s.dataQueue.length < 2 then { s with dataQueue := s.dataQueue ++ [d] } else s

/-- The anti-windup branch of `control_loop`, lines 136-142 (see
`integrate`). -/
def integrateF (output error integral : FP) : FP :=
  if FP.lt (FP.fin (SENSOR_MAX_OUTPUT - 1)) output && FP.lt (FP.fin 0) error then
    integral.add (FP.fin 0)
  else if FP.lt output (FP.fin (SENSOR_MIN_OUTPUT + 1)) && FP.lt error (FP.fin 0) then
    integral.add (FP.fin 0)
  else integral.add (error.mul (FP.fin (1 / 10)))

/-- The "Clip output" statement of `control_loop`, lines 147-151 (see
`clip`): both tests are comparisons, so NaN takes neither branch. -/
def clipF (output : FP) : FP :=
  if FP.lt output (FP.fin SENSOR_MIN_OUTPUT) then FP.fin SENSOR_MIN_OUTPUT
  else if FP.lt (FP.fin SENSOR_MAX_OUTPUT) output then FP.fin SENSOR_MAX_OUTPUT
  else output

/-- One pass through the body of the `while(1)` loop of `control_loop` (see
`control_loop_iter`). Returns the state after the pass and the argument of
`set_motor_speed`. -/
def control_loop_iterF (s : CtrlStateF) (coldRecv hotRecv : Option FP) :
    CtrlStateF × FP :=
  let s1 := recvSettingsF s
  let coldTemp := get_tempF s1.coldCache coldRecv
  let hotTemp := get_tempF s1.hotCache hotRecv
  let _deltaT := hotTemp.sub coldTemp
  let error := hotTemp.sub s1.controllerSettings.setpoint
  let derivative := (error.sub s1.last_error).divBy (2 / 10)
  let integral := integrateF s1.output error s1.integral
  let pid := ((s1.controllerSettings.P_gain.mul error).add
    (s1.controllerSettings.D_gain.mul derivative)).add
    (s1.controllerSettings.I_gain.mul integral)
  let clipped := clipF pid
  let output := if s1.flushSystem then FP.fin 5000 else clipped
  ({ s1 with output := output, last_error := error, integral := integral,
             hotCache := hotTemp, coldCache := coldTemp }, output)

/-! ## Theorems: controller.c -/

theorem clip_eq_clamp (x : ℚ) : clip x = clamp x SENSOR_MIN_OUTPUT SENSOR_MAX_OUTPUT := by
  unfold clip clamp SENSOR_MIN_OUTPUT SENSOR_MAX_OUTPUT
  split_ifs with h1 h2
  · rw [max_eq_left]
    exact le_trans (min_le_left _ _) (le_of_lt h1)
  · rw [min_eq_right (le_of_lt h2)]; norm_num
  · rw [min_eq_left (not_lt.mp h2), max_eq_right (not_lt.mp h1)]

theorem clip_range (x : ℚ) : SENSOR_MIN_OUTPUT ≤ clip x ∧ clip x ≤ SENSOR_MAX_OUTPUT := by
  unfold clip SENSOR_MIN_OUTPUT SENSOR_MAX_OUTPUT
  split_ifs with h1 h2
  · norm_num
  · norm_num
  · exact ⟨not_lt.mp h1, not_lt.mp h2⟩

theorem recvSettings_flush (s : CtrlState) : (recvSettings s).flushSystem = s.flushSystem := by
  unfold recvSettings; cases s.dataQueue <;> rfl

theorem recvSettings_output (s : CtrlState) : (recvSettings s).output = s.output := by
  unfold recvSettings; cases s.dataQueue <;> rfl

theorem recvSettings_integral (s : CtrlState) : (recvSettings s).integral = s.integral := by
  unfold recvSettings; cases s.dataQueue <;> rfl

theorem recvSettings_last_error (s : CtrlState) :
    (recvSettings s).last_error = s.last_error := by
  unfold recvSettings; cases s.dataQueue <;> rfl

theorem recvSettings_hotCache (s : CtrlState) : (recvSettings s).hotCache = s.hotCache := by
  unfold recvSettings; cases s.dataQueue <;> rfl

theorem sendSettings_flush (s : CtrlState) (d : Data) :
    (sendSettings s d).flushSystem = s.flushSystem := by
  unfold sendSettings; split_ifs <;> rfl

theorem sendSettings_integral (s : CtrlState) (d : Data) :
    (sendSettings s d).integral = s.integral := by
  unfold sendSettings; split_ifs <;> rfl

theorem iter_flush (s : CtrlState) (c h : Option ℚ) :
    (control_loop_iter s c h).1.flushSystem = s.flushSystem := by
  simp [control_loop_iter, recvSettings_flush]

theorem iter_emitted (s : CtrlState) (c h : Option ℚ) :
    (control_loop_iter s c h).2.emitted =
      if s.flushSystem then 5000 else clip (control_loop_iter s c h).2.pid := by
  simp [control_loop_iter, recvSettings_flush]

theorem iter_error (s : CtrlState) (c h : Option ℚ) :
    (control_loop_iter s c h).2.error =
      get_temp s.hotCache h - (recvSettings s).controllerSettings.setpoint := by
  simp [control_loop_iter, recvSettings_hotCache]

theorem iter_integral (s : CtrlState) (c h : Option ℚ) :
    (control_loop_iter s c h).1.integral =
      integrate s.output (control_loop_iter s c h).2.error s.integral := by
  simp [control_loop_iter, recvSettings_output, recvSettings_integral]

theorem iter_pid (s : CtrlState) (c h : Option ℚ) :
    (control_loop_iter s c h).2.pid =
      pidSum (recvSettings s).controllerSettings (control_loop_iter s c h).2.error
        (control_loop_iter s c h).2.derivative (control_loop_iter s c h).1.integral := by
  simp [control_loop_iter, pidSum]

theorem iter_emitted_range (s : CtrlState) (c h : Option ℚ) :
    SENSOR_MIN_OUTPUT ≤ (control_loop_iter s c h).2.emitted
      ∧ (control_loop_iter s c h).2.emitted ≤ SENSOR_MAX_OUTPUT := by
  rw [iter_emitted]
  split_ifs
  · norm_num [SENSOR_MIN_OUTPUT, SENSOR_MAX_OUTPUT]
  · exact clip_range _

/-- C1: with flush inactive, one iteration of `control_loop` passes to
`set_motor_speed` exactly `clamp(P·error + D·derivative + I·integral', 1350,
8190)`, where `error` is the hot-side temperature minus the setpoint in force,
`derivative` is `(error − previous error) / 0.2`, and `integral'` is the
integral as stored by this iteration. -/
theorem control_loop_emits_clamped_pid (s : CtrlState) (coldRecv hotRecv : Option ℚ)
    (hflush : s.flushSystem = false) :
    (control_loop_iter s coldRecv hotRecv).2.error
        = get_temp s.hotCache hotRecv - (recvSettings s).controllerSettings.setpoint
    ∧ (control_loop_iter s coldRecv hotRecv).2.derivative
        = ((control_loop_iter s coldRecv hotRecv).2.error - s.last_error) / (2 / 10)
    ∧ (control_loop_iter s coldRecv hotRecv).2.emitted
        = clamp ((recvSettings s).controllerSettings.P_gain
                    * (control_loop_iter s coldRecv hotRecv).2.error
                  + (recvSettings s).controllerSettings.D_gain
                    * (control_loop_iter s coldRecv hotRecv).2.derivative
                  + (recvSettings s).controllerSettings.I_gain
                    * (control_loop_iter s coldRecv hotRecv).1.integral)
            1350 8190 := by
  refine ⟨iter_error s _ _, ?_, ?_⟩
  · simp [control_loop_iter, recvSettings_last_error, recvSettings_hotCache]
  · rw [iter_emitted, hflush, iter_pid, clip_eq_clamp]
    simp [pidSum, SENSOR_MIN_OUTPUT, SENSOR_MAX_OUTPUT]

/-- Witness of C1: the first iteration from the initial state with the hot-side
reading 60. -/
theorem control_loop_emits_clamped_pid_witness :
    initState.flushSystem = false
    ∧ (control_loop_iter initState none (some 60)).2.emitted
        = clamp ((recvSettings initState).controllerSettings.P_gain
                    * (control_loop_iter initState none (some 60)).2.error
                  + (recvSettings initState).controllerSettings.D_gain
                    * (control_loop_iter initState none (some 60)).2.derivative
                  + (recvSettings initState).controllerSettings.I_gain
                    * (control_loop_iter initState none (some 60)).1.integral)
            1350 8190 :=
  ⟨rfl, (control_loop_emits_clamped_pid initState none (some 60) rfl).2.2⟩

theorem run_emitted_range (s : CtrlState) (es : List Event) :
    ∀ x ∈ (run s es).2, SENSOR_MIN_OUTPUT ≤ x ∧ x ≤ SENSOR_MAX_OUTPUT := by
  induction es generalizing s with
  | nil => intro x hx; simp [run] at hx
  | cons e es ih =>
    cases e with
    | settings d => simpa [run] using ih (sendSettings s d)
    | flush b => simpa [run] using ih (setFlush s b)
    | iterate c h =>
      intro x hx
      simp only [run, List.mem_cons] at hx
      rcases hx with hx | hx
      · rw [hx]; exact iter_emitted_range s c h
      · exact ih _ x hx

/-- As long as every setting and temperature is a finite number: over every
sequence of settings updates, temperature readings and `setFlush` calls, from
every state, each value passed to `set_motor_speed` lies in
`[SENSOR_MIN_OUTPUT, SENSOR_MAX_OUTPUT] = [1350, 8190]` and is strictly
greater than zero. -/
theorem motor_speed_in_range (s : CtrlState) (es : List Event) :
    SENSOR_MIN_OUTPUT = 1350 ∧ SENSOR_MAX_OUTPUT = 8190
    ∧ ∀ x ∈ (run s es).2, 1350 ≤ x ∧ x ≤ 8190 ∧ 0 < x := by
  refine ⟨rfl, rfl, fun x hx => ?_⟩
  have h := run_emitted_range s es x hx
  simp only [SENSOR_MIN_OUTPUT, SENSOR_MAX_OUTPUT] at h
  exact ⟨h.1, h.2, by linarith [h.1]⟩

/-- An instance of `motor_speed_in_range`: flush switched on, one iteration, flush switched off, a
settings update, one more iteration; both emitted values are in range. -/
theorem motor_speed_in_range_witness :
    (run initState [Event.flush true, Event.iterate none (some 60), Event.flush false,
        Event.settings ⟨70, 1, 1, 1⟩, Event.iterate none none]).2 = [5000, 1350]
    ∧ ((1350 : ℚ) ≤ 5000 ∧ (5000 : ℚ) ≤ 8190 ∧ (0 : ℚ) < 5000) :=
  ⟨by norm_num [run, control_loop_iter, recvSettings, sendSettings, setFlush, initState,
        defaultSettings, get_temp, integrate, clip, SENSOR_MIN_OUTPUT, SENSOR_MAX_OUTPUT],
   (motor_speed_in_range initState [Event.flush true, Event.iterate none (some 60),
        Event.flush false, Event.settings ⟨70, 1, 1, 1⟩, Event.iterate none none]).2.2 5000
      (by norm_num [run, control_loop_iter, recvSettings, sendSettings, setFlush, initState,
        defaultSettings, get_temp, integrate, clip, SENSOR_MIN_OUTPUT, SENSOR_MAX_OUTPUT])⟩

theorem integrate_pinned_max (error integral : ℚ) (he : 0 < error) :
    integrate SENSOR_MAX_OUTPUT error integral = integral := by
  unfold integrate
  rw [if_pos ⟨by norm_num [SENSOR_MAX_OUTPUT], he⟩, add_zero]

theorem integrate_pinned_min (error integral : ℚ) (he : error < 0) :
    integrate SENSOR_MIN_OUTPUT error integral = integral := by
  unfold integrate
  rw [if_neg (by norm_num [SENSOR_MAX_OUTPUT, SENSOR_MIN_OUTPUT]),
    if_pos ⟨by norm_num [SENSOR_MIN_OUTPUT], he⟩, add_zero]

theorem run_pinned_max (s : CtrlState) (es : List Event)
    (h : Pinned SENSOR_MAX_OUTPUT (fun e => 0 < e) s es) :
    (run s es).1.integral = s.integral := by
  induction es generalizing s with
  | nil => rfl
  | cons e es ih =>
    cases e with
    | settings d => simpa [run, sendSettings_integral] using ih (sendSettings s d) h
    | flush b => simpa [run, setFlush] using ih (setFlush s b) h
    | iterate c t =>
      obtain ⟨ho, he, hrest⟩ := h
      simp only [run]
      rw [ih _ hrest, iter_integral, ho, integrate_pinned_max _ _ he]

theorem run_pinned_min (s : CtrlState) (es : List Event)
    (h : Pinned SENSOR_MIN_OUTPUT (fun e => e < 0) s es) :
    (run s es).1.integral = s.integral := by
  induction es generalizing s with
  | nil => rfl
  | cons e es ih =>
    cases e with
    | settings d => simpa [run, sendSettings_integral] using ih (sendSettings s d) h
    | flush b => simpa [run, setFlush] using ih (setFlush s b) h
    | iterate c t =>
      obtain ⟨ho, he, hrest⟩ := h
      simp only [run]
      rw [ih _ hrest, iter_integral, ho, integrate_pinned_min _ _ he]

/-- C3 (anti-windup): an iteration of `control_loop` that starts with the
stored output equal to `SENSOR_MAX_OUTPUT` and has a positive error, or starts
with it equal to `SENSOR_MIN_OUTPUT` and has a negative error, leaves the
integral as it was; hence over a run of events in which every iteration starts
pinned at MAX with positive error the integral does not increase, and over one
pinned at MIN with negative error it does not decrease. -/
theorem anti_windup (s : CtrlState) :
    (∀ coldRecv hotRecv,
        (s.output = SENSOR_MAX_OUTPUT ∧ 0 < (control_loop_iter s coldRecv hotRecv).2.error)
          ∨ (s.output = SENSOR_MIN_OUTPUT ∧ (control_loop_iter s coldRecv hotRecv).2.error < 0)
        → (control_loop_iter s coldRecv hotRecv).1.integral = s.integral)
    ∧ (∀ es, Pinned SENSOR_MAX_OUTPUT (fun e => 0 < e) s es
        → (run s es).1.integral ≤ s.integral)
    ∧ (∀ es, Pinned SENSOR_MIN_OUTPUT (fun e => e < 0) s es
        → s.integral ≤ (run s es).1.integral) := by
  refine ⟨fun c h hyp => ?_, fun es h => le_of_eq (run_pinned_max s es h),
    fun es h => le_of_eq (run_pinned_min s es h).symm⟩
  rw [iter_integral]
  rcases hyp with ⟨ho, he⟩ | ⟨ho, he⟩
  · rw [ho, integrate_pinned_max _ _ he]
  · rw [ho, integrate_pinned_min _ _ he]

/-- Witness of C3: a state pinned at MAX with the hot side 10 above the
setpoint over two iterations, and one pinned at MIN with it 10 below. -/
theorem anti_windup_witness :
    (control_loop_iter { initState with output := 8190, integral := 3 } none (some 60)).1.integral
        = 3
    ∧ (run { initState with output := 8190, integral := 3 }
          [Event.iterate none (some 60), Event.iterate none (some 60)]).1.integral ≤ 3
    ∧ 3 ≤ (run { initState with output := 1350, integral := 3 }
          [Event.iterate none (some 40)]).1.integral :=
  ⟨(anti_windup { initState with output := 8190, integral := 3 }).1 none (some 60)
      (Or.inl (by norm_num [control_loop_iter, recvSettings, initState, defaultSettings,
        get_temp, SENSOR_MAX_OUTPUT])),
   (anti_windup { initState with output := 8190, integral := 3 }).2.1
      [Event.iterate none (some 60), Event.iterate none (some 60)]
      (by norm_num [Pinned, control_loop_iter, recvSettings, initState, defaultSettings,
        get_temp, integrate, clip, SENSOR_MAX_OUTPUT, SENSOR_MIN_OUTPUT]),
   (anti_windup { initState with output := 1350, integral := 3 }).2.2
      [Event.iterate none (some 40)]
      (by norm_num [Pinned, control_loop_iter, recvSettings, initState, defaultSettings,
        get_temp, SENSOR_MIN_OUTPUT])⟩

/-- C4: the iteration from the initial state with the hot side at 51 has error
1 and accumulates the integral; its derivative is `(1 − 0) / 0.2 = 5` and its
integral is `0 + 1 · 0.1`, and no single interval `dt` gives both
`derivative = (error − previous error) / dt` and
`integral = integral + error · dt`. -/
theorem sample_interval_mismatch :
    (control_loop_iter initState none (some 51)).2.error = 1
    ∧ (control_loop_iter initState none (some 51)).2.derivative = 5
    ∧ (control_loop_iter initState none (some 51)).1.integral = 1 / 10
    ∧ ¬ ∃ dt : ℚ,
        (control_loop_iter initState none (some 51)).2.derivative
            = ((control_loop_iter initState none (some 51)).2.error - initState.last_error) / dt
        ∧ (control_loop_iter initState none (some 51)).1.integral
            = initState.integral + (control_loop_iter initState none (some 51)).2.error * dt := by
  have he : (control_loop_iter initState none (some 51)).2.error = 1 := by
    norm_num [control_loop_iter, recvSettings, initState, defaultSettings, get_temp]
  have hd : (control_loop_iter initState none (some 51)).2.derivative = 5 := by
    norm_num [control_loop_iter, recvSettings, initState, defaultSettings, get_temp]
  have hi : (control_loop_iter initState none (some 51)).1.integral = 1 / 10 := by
    norm_num [control_loop_iter, recvSettings, initState, defaultSettings, get_temp,
      integrate, SENSOR_MAX_OUTPUT, SENSOR_MIN_OUTPUT]
  refine ⟨he, hd, hi, ?_⟩
  rintro ⟨dt, h1, h2⟩
  rw [he, hi] at h2
  rw [he, hd] at h1
  have hdt : dt = 1 / 10 := by
    simp only [initState] at h2; linarith
  rw [hdt] at h1
  norm_num [initState] at h1

theorem run_flush_on (s : CtrlState) (es : List Event) (hs : s.flushSystem = true)
    (hes : ∀ e ∈ es, e.keepsFlush = true) : ∀ x ∈ (run s es).2, x = 5000 := by
  induction es generalizing s with
  | nil => intro x hx; simp [run] at hx
  | cons e es ih =>
    have hes2 : ∀ e ∈ es, e.keepsFlush = true := fun e he => hes e (List.mem_cons_of_mem _ he)
    cases e with
    | settings d =>
      simpa [run] using ih (sendSettings s d) (by rw [sendSettings_flush, hs]) hes2
    | flush b =>
      have := hes (Event.flush b) (List.mem_cons_self _ _)
      simp [Event.keepsFlush] at this
    | iterate c h =>
      intro x hx
      simp only [run, List.mem_cons] at hx
      rcases hx with hx | hx
      · rw [hx, iter_emitted, hs]; rfl
      · exact ih _ (by rw [iter_flush, hs]) hes2 x hx

/-- C5: after `setFlush(true)`, as long as `setFlush` is not called again,
every iteration of `control_loop` passes the fixed value 5000 to
`set_motor_speed`, whatever the state, the settings updates and the
temperature readings; and the iteration that follows `setFlush(false)` passes
the clamped PID sum again. -/
theorem flush_override (s : CtrlState) :
    (∀ es : List Event, (∀ e ∈ es, e.keepsFlush = true)
        → ∀ x ∈ (run (setFlush s true) es).2, x = 5000)
    ∧ (∀ coldRecv hotRecv,
        (control_loop_iter (setFlush s false) coldRecv hotRecv).2.emitted
          = clamp (pidSum (recvSettings (setFlush s false)).controllerSettings
                (control_loop_iter (setFlush s false) coldRecv hotRecv).2.error
                (control_loop_iter (setFlush s false) coldRecv hotRecv).2.derivative
                (control_loop_iter (setFlush s false) coldRecv hotRecv).1.integral)
              1350 8190) := by
  refine ⟨fun es hes => run_flush_on _ es rfl hes, fun c h => ?_⟩
  rw [iter_emitted, iter_pid, clip_eq_clamp]
  simp [setFlush, SENSOR_MIN_OUTPUT, SENSOR_MAX_OUTPUT]

/-- Witness of C5: in flush mode two iterations with different readings and a
settings update in between both emit 5000. -/
theorem flush_override_witness :
    (run (setFlush initState true) [Event.iterate none (some 60),
        Event.settings ⟨70, 1, 1, 1⟩, Event.iterate (some 20) (some 90)]).2 = [5000, 5000]
    ∧ (5000 : ℚ) = 5000 :=
  ⟨by norm_num [run, control_loop_iter, recvSettings, sendSettings, setFlush, initState,
        defaultSettings, get_temp, integrate, clip, SENSOR_MIN_OUTPUT, SENSOR_MAX_OUTPUT],
   (flush_override initState).1 [Event.iterate none (some 60),
        Event.settings ⟨70, 1, 1, 1⟩, Event.iterate (some 20) (some 90)]
      (by simp [Event.keepsFlush]) 5000
      (by norm_num [run, control_loop_iter, recvSettings, sendSettings, setFlush, initState,
        defaultSettings, get_temp, integrate, clip, SENSOR_MIN_OUTPUT, SENSOR_MAX_OUTPUT])⟩

/-! ## Theorems: libc models -/

theorem cstr_cons (c : Char) (s : List Char) (hc : c ≠ NUL) : cstr (c :: s) = c :: cstr s := by
  simp [cstr, List.takeWhile_cons, hc]

theorem cstr_at_nul (s : List Char) : cstr (NUL :: s) = [] := by
  simp [cstr]

theorem cstr_append_nul (s rest : List Char) (hs : NUL ∉ s) : cstr (s ++ NUL :: rest) = s := by
  induction s with
  | nil => exact cstr_at_nul rest
  | cons c s ih =>
    have hc : c ≠ NUL := fun h => hs (by simp [h])
    have hs2 : NUL ∉ s := fun h => hs (List.mem_cons_of_mem _ h)
    rw [List.cons_append, cstr_cons _ _ hc, ih hs2]

theorem cstr_of_no_nul (s : List Char) (hs : NUL ∉ s) : cstr s = s := by
  induction s with
  | nil => rfl
  | cons c s ih =>
    have hc : c ≠ NUL := fun h => hs (by simp [h])
    have hs2 : NUL ∉ s := fun h => hs (List.mem_cons_of_mem _ h)
    rw [cstr_cons _ _ hc, ih hs2]

theorem cstr_padded (s : List Char) (k : Nat) (hs : NUL ∉ s) :
    cstr (s ++ List.replicate k NUL) = s := by
  cases k with
  | zero => simpa using cstr_of_no_nul s hs
  | succ k => simpa [List.replicate_succ] using cstr_append_nul s (List.replicate k NUL) hs

theorem splitToken_delim (delim tok rest : List Char) (d : Char)
    (htok : ∀ c ∈ tok, c ≠ NUL ∧ c ∉ delim) (hd : d ∈ delim) (hdn : d ≠ NUL) :
    splitToken delim (tok ++ d :: rest) = (tok ++ NUL :: rest, rest) := by
  induction tok with
  | nil => simp [splitToken, hd, hdn]
  | cons c tok ih =>
    have hc := htok c (List.mem_cons_self _ _)
    have ih2 := ih (fun x hx => htok x (List.mem_cons_of_mem _ hx))
    simp [splitToken, hc.1, hc.2, ih2]

theorem splitToken_nul (delim tok rest : List Char)
    (htok : ∀ c ∈ tok, c ≠ NUL ∧ c ∉ delim) :
    splitToken delim (tok ++ NUL :: rest) = (tok ++ NUL :: rest, NUL :: rest) := by
  induction tok with
  | nil => simp [splitToken]
  | cons c tok ih =>
    have hc := htok c (List.mem_cons_self _ _)
    have ih2 := ih (fun x hx => htok x (List.mem_cons_of_mem _ hx))
    simp [splitToken, hc.1, hc.2, ih2]

theorem strtok_delim (delim tok rest : List Char) (d : Char) (hne : tok ≠ [])
    (htok : ∀ c ∈ tok, c ≠ NUL ∧ c ∉ delim) (hd : d ∈ delim) (hdn : d ≠ NUL) :
    strtok delim (tok ++ d :: rest) = (some (tok ++ NUL :: rest), rest) := by
  cases tok with
  | nil => exact absurd rfl hne
  | cons c tok =>
    have hc := htok c (List.mem_cons_self _ _)
    have h := splitToken_delim delim (c :: tok) rest d htok hd hdn
    simp only [List.cons_append] at h
    simp [strtok, skipDelims, hc.1, hc.2, h]

theorem strtok_last (delim tok rest : List Char) (hne : tok ≠ [])
    (htok : ∀ c ∈ tok, c ≠ NUL ∧ c ∉ delim) :
    strtok delim (tok ++ NUL :: rest) = (some (tok ++ NUL :: rest), NUL :: rest) := by
  cases tok with
  | nil => exact absurd rfl hne
  | cons c tok =>
    have hc := htok c (List.mem_cons_self _ _)
    have h := splitToken_nul delim (c :: tok) rest htok
    simp only [List.cons_append] at h
    simp [strtok, skipDelims, hc.1, hc.2, h]

theorem strtok_at_nul (delim rest : List Char) (hn : NUL ∉ delim) :
    strtok delim (NUL :: rest) = (none, NUL :: rest) := by
  simp [strtok, skipDelims, hn]

theorem strncpy_cstr (s rest : List Char) (n : Nat) (hs : NUL ∉ s) :
    strncpy (s ++ NUL :: rest) n = .ok (s.take n ++ List.replicate (n - s.length) NUL) := by
  induction s generalizing n with
  | nil =>
    cases n with
    | zero => simp [strncpy]
    | succ n => simp [strncpy]
  | cons c s ih =>
    have hc : c ≠ NUL := fun h => hs (by simp [h])
    have hs2 : NUL ∉ s := fun h => hs (List.mem_cons_of_mem _ h)
    cases n with
    | zero => simp [strncpy]
    | succ n => simp [strncpy, hc, ih n hs2]

/-! ## Theorems: messages.c -/

theorem readKey_pair (k rest : List Char) (i : Nat) (hk : ':' ∉ k)
    (hlen : i + k.length < MAX_KEY_LEN) : readKey (k ++ ':' :: rest) i = .ok (k, rest) := by
  induction k generalizing i with
  | nil =>
    have hi : i < MAX_KEY_LEN := by simpa using hlen
    simp [readKey, hi]
  | cons c k ih =>
    have hc : c ≠ ':' := fun h => hk (by simp [h])
    have hk2 : ':' ∉ k := fun h => hk (List.mem_cons_of_mem _ h)
    have hi : i < MAX_KEY_LEN := by simp only [List.length_cons] at hlen; omega
    have hlen2 : i + 1 + k.length < MAX_KEY_LEN := by
      simp only [List.length_cons] at hlen; omega
    simp [readKey, hc, hi, ih (i + 1) hk2 hlen2]

theorem readValue_pair (v rest : List Char) (i : Nat) (hv : NUL ∉ v)
    (hlen : i + v.length < MAX_VALUE_LEN) : readValue (v ++ NUL :: rest) i = .ok v := by
  induction v generalizing i with
  | nil =>
    have hi : i < MAX_VALUE_LEN := by simpa using hlen
    simp [readValue, hi]
  | cons c v ih =>
    have hc : c ≠ NUL := fun h => hv (by simp [h])
    have hv2 : NUL ∉ v := fun h => hv (List.mem_cons_of_mem _ h)
    have hi : i < MAX_VALUE_LEN := by simp only [List.length_cons] at hlen; omega
    have hlen2 : i + 1 + v.length < MAX_VALUE_LEN := by
      simp only [List.length_cons] at hlen; omega
    simp [readValue, hc, hi, ih (i + 1) hv2 hlen2]

theorem processPair_pair (k v rest : List Char) (hk : ':' ∉ k) (hkn : NUL ∉ k)
    (hklen : k.length < MAX_KEY_LEN) (hv : NUL ∉ v) (hvlen : v.length < MAX_VALUE_LEN) :
    processPair (pairText (k, v) ++ NUL :: rest) = .ok { key := k, value := atof v } := by
  have h1 : readKey (k ++ ':' :: (v ++ NUL :: rest)) 0 = .ok (k, v ++ NUL :: rest) :=
    readKey_pair k _ 0 hk (by simpa using hklen)
  have h2 : readValue (v ++ NUL :: rest) 0 = .ok v :=
    readValue_pair v rest 0 hv (by simpa using hvlen)
  simp only [pairText, List.append_assoc, List.cons_append]
  simp [processPair, h1, h2, cstr_of_no_nul k hkn]

theorem pairText_token (kv : List Char × List Char)
    (hk : ',' ∉ kv.1 ∧ NUL ∉ kv.1) (hv : ',' ∉ kv.2 ∧ NUL ∉ kv.2) :
    pairText kv ≠ [] ∧ ∀ c ∈ pairText kv, c ≠ NUL ∧ c ∉ [','] := by
  refine ⟨by simp [pairText], fun c hc => ?_⟩
  simp only [pairText, List.mem_append, List.mem_cons] at hc
  rcases hc with hc | hc | hc
  · exact ⟨fun h => hk.2 (h ▸ hc), by rw [List.mem_singleton]; intro h; exact hk.1 (h ▸ hc)⟩
  · subst hc; exact ⟨by decide, by decide⟩
  · exact ⟨fun h => hv.2 (h ▸ hc), by rw [List.mem_singleton]; intro h; exact hv.1 (h ▸ hc)⟩

theorem encodePairs_cons (kv : List Char × List Char) (rest : List (List Char × List Char))
    (beyond : List Char) :
    encodePairs (kv :: rest) ++ NUL :: beyond = pairText kv ++ NUL :: beyond
    ∨ encodePairs (kv :: rest) ++ NUL :: beyond
        = pairText kv ++ ',' :: (encodePairs rest ++ NUL :: beyond) := by
  cases rest with
  | nil => left; rfl
  | cons kv2 rest => right; simp [encodePairs]

theorem strtok_encodePairs (kv : List Char × List Char) (rest : List (List Char × List Char))
    (beyond : List Char) (hk : ',' ∉ kv.1 ∧ NUL ∉ kv.1) (hv : ',' ∉ kv.2 ∧ NUL ∉ kv.2) :
    ∃ after, strtok [','] (encodePairs (kv :: rest) ++ NUL :: beyond)
      = (some (pairText kv ++ NUL :: after), encodePairs rest ++ NUL :: beyond) := by
  obtain ⟨hne, htok⟩ := pairText_token kv hk hv
  cases rest with
  | nil =>
    exact ⟨beyond, by simpa [encodePairs] using strtok_last [','] (pairText kv) beyond hne htok⟩
  | cons kv2 rest =>
    refine ⟨encodePairs (kv2 :: rest) ++ NUL :: beyond, ?_⟩
    have := strtok_delim [','] (pairText kv) (encodePairs (kv2 :: rest) ++ NUL :: beyond) ','
      hne htok (by simp) (by decide)
    simpa [encodePairs] using this

theorem parseLoop_encodePairs (pairs : List (List Char × List Char)) (beyond : List Char)
    (fuel : Nat) (hfuel : pairs.length ≤ fuel)
    (hk : ∀ kv ∈ pairs, kv.1.length < MAX_KEY_LEN ∧ ':' ∉ kv.1 ∧ ',' ∉ kv.1 ∧ NUL ∉ kv.1)
    (hv : ∀ kv ∈ pairs, kv.2.length < MAX_VALUE_LEN ∧ ',' ∉ kv.2 ∧ NUL ∉ kv.2) :
    parseLoop fuel (strtok [','] (encodePairs pairs ++ NUL :: beyond)).1
        (strtok [','] (encodePairs pairs ++ NUL :: beyond)).2
      = .ok (pairs.map (fun kv => { key := kv.1, value := atof kv.2 })) := by
  induction pairs generalizing fuel with
  | nil =>
    have : strtok [','] (encodePairs [] ++ NUL :: beyond) = (none, NUL :: beyond) := by
      simpa [encodePairs] using strtok_at_nul [','] beyond (by decide)
    rw [this]
    cases fuel <;> simp [parseLoop]
  | cons kv rest ih =>
    have hkv := hk kv (List.mem_cons_self _ _)
    have hvv := hv kv (List.mem_cons_self _ _)
    obtain ⟨after, hst⟩ := strtok_encodePairs kv rest beyond ⟨hkv.2.2.1, hkv.2.2.2⟩ hvv.2
    rw [hst]
    cases fuel with
    | zero => simp at hfuel
    | succ fuel =>
      have hpp := processPair_pair kv.1 kv.2 after hkv.2.1 hkv.2.2.2 hkv.1 hvv.2.2 hvv.1
      have ih2 := ih fuel (by simpa using hfuel)
        (fun x hx => hk x (List.mem_cons_of_mem _ hx))
        (fun x hx => hv x (List.mem_cons_of_mem _ hx))
      simp only [parseLoop, hpp, ih2, List.map_cons]

theorem encodePairs_length (pairs : List (List Char × List Char)) :
    pairs.length ≤ (encodePairs pairs).length := by
  induction pairs with
  | nil => simp
  | cons kv rest ih =>
    cases rest with
    | nil =>
      simp only [encodePairs, pairText, List.length_append, List.length_cons,
        List.length_nil]
      omega
    | cons kv2 rest =>
      simp only [encodePairs, pairText, List.length_append, List.length_cons] at ih ⊢
      omega

theorem parseMessage_encodePairs (pairs : List (List Char × List Char)) (beyond : List Char)
    (len : Nat)
    (hk : ∀ kv ∈ pairs, kv.1.length < MAX_KEY_LEN ∧ ':' ∉ kv.1 ∧ ',' ∉ kv.1 ∧ NUL ∉ kv.1)
    (hv : ∀ kv ∈ pairs, kv.2.length < MAX_VALUE_LEN ∧ ',' ∉ kv.2 ∧ NUL ∉ kv.2) :
    parseMessage (encodePairs pairs ++ NUL :: beyond) len
      = .ok (pairs.map (fun kv => { key := kv.1, value := atof kv.2 })) := by
  unfold parseMessage
  apply parseLoop_encodePairs _ _ _ _ hk hv
  have := encodePairs_length pairs
  simp only [List.length_append, List.length_cons]
  omega

theorem strncmpEq_short (a b : List Char) (ha : a.length < MAX_KEY_LEN)
    (hb : b.length < MAX_KEY_LEN) : strncmpEq a b MAX_KEY_LEN = decide (a = b) := by
  unfold strncmpEq
  rw [List.take_of_length_le (le_of_lt ha), List.take_of_length_le (le_of_lt hb)]
  by_cases h : a = b <;> simp [h]

theorem findByKey_unique (ms : List Message) (key : List Char) (x : ℚ)
    (hkey : key.length < MAX_KEY_LEN) (hks : ∀ m ∈ ms, m.key.length < MAX_KEY_LEN)
    (hmem : ({ key := key, value := x } : Message) ∈ ms)
    (hone : (ms.map (fun m => m.key)).count key = 1) : findByKey ms key = x := by
  induction ms with
  | nil => simp at hmem
  | cons m ms ih =>
    have hm := hks m (List.mem_cons_self _ _)
    simp only [findByKey, strncmpEq_short key m.key hkey hm]
    by_cases h : key = m.key
    · simp only [h, decide_True, if_true]
      rcases List.mem_cons.mp hmem with h1 | h1
      · rw [← h1]
      · exfalso
        have hin : key ∈ ms.map (fun m => m.key) :=
          List.mem_map.mpr ⟨_, h1, rfl⟩
        have hpos := List.count_pos_iff.mpr hin
        simp only [List.map_cons, h, List.count_cons_self] at hone
        rw [h] at hpos
        omega
    · simp only [h, decide_False, Bool.false_eq_true, if_false]
      apply ih (fun m hm => hks m (List.mem_cons_of_mem _ hm))
      · rcases List.mem_cons.mp hmem with h1 | h1
        · exact absurd (by rw [← h1]) h
        · exact h1
      · simpa [List.count_cons, Ne.symm h] using hone

/-! ### The step budget of `parseMessage` is never used up -/

theorem readKey_budget (p : List Char) (i : Nat) : readKey p i ≠ .error .outOfFuel := by
  induction p generalizing i with
  | nil => simp [readKey]
  | cons c rest ih =>
    simp only [readKey]
    split_ifs
    · cases h : readKey rest (i + 1) with
      | error e =>
        simp only
        intro he
        injection he with he
        rw [he] at h
        exact ih _ h
      | ok r => simp
    · simp
    · simp
    · simp

theorem readValue_budget (p : List Char) (i : Nat) : readValue p i ≠ .error .outOfFuel := by
  induction p generalizing i with
  | nil => simp [readValue]
  | cons c rest ih =>
    simp only [readValue]
    split_ifs
    · cases h : readValue rest (i + 1) with
      | error e =>
        simp only
        intro he
        injection he with he
        rw [he] at h
        exact ih _ h
      | ok r => simp
    · simp
    · simp
    · simp

theorem skipDelims_length (delim p : List Char) : (skipDelims delim p).length ≤ p.length := by
  induction p with
  | nil => simp [skipDelims]
  | cons c rest ih =>
    simp only [skipDelims]
    split_ifs
    · exact le_trans ih (by simp)
    · exact le_refl _

theorem splitToken_length (delim p : List Char) : (splitToken delim p).2.length ≤ p.length := by
  induction p with
  | nil => simp [splitToken]
  | cons c rest ih =>
    simp only [splitToken]
    split_ifs
    · exact le_refl _
    · simp
    · exact le_trans ih (by simp)

theorem strtok_saved_length (delim p tok : List Char) (h : (strtok delim p).1 = some tok) :
    (strtok delim p).2.length < p.length := by
  have hskip := skipDelims_length delim p
  unfold strtok at h ⊢
  cases hs : skipDelims delim p with
  | nil => rw [hs] at h; simp at h
  | cons c rest =>
    rw [hs] at h hskip
    simp only at h ⊢
    by_cases hc : c = NUL
    · simp [hc] at h
    · simp only [hc, if_false]
      have h2 : (splitToken delim (c :: rest)).2.length ≤ rest.length := by
        simp only [splitToken, hc, if_false]
        split_ifs
        · exact le_refl _
        · exact splitToken_length delim rest
      simp only [List.length_cons] at hskip
      omega

theorem parseLoop_budget (fuel : Nat) (pair : Option (List Char)) (saved : List Char)
    (h : pair ≠ none → saved.length < fuel) : parseLoop fuel pair saved ≠ .error .outOfFuel := by
  induction fuel generalizing pair saved with
  | zero =>
    cases pair with
    | none => simp [parseLoop]
    | some tok => exact absurd (h (by simp)) (by simp)
  | succ fuel ih =>
    cases pair with
    | none => simp [parseLoop]
    | some tok =>
      have hlt := h (by simp)
      have hnext : (strtok [','] saved).1 ≠ none → (strtok [','] saved).2.length < fuel := by
        intro hne
        obtain ⟨t, ht⟩ := Option.ne_none_iff_exists'.mp hne
        have := strtok_saved_length [','] saved t ht
        omega
      have ih2 := ih _ _ hnext
      simp only [parseLoop]
      cases hp : processPair tok with
      | error e =>
        simp only
        intro he
        injection he with he
        rw [he] at hp
        revert hp
        unfold processPair
        cases hk : readKey tok 0 with
        | error e2 =>
          simp only
          intro h2
          injection h2 with h2
          rw [h2] at hk
          exact absurd hk (readKey_budget tok 0)
        | ok r =>
          obtain ⟨name, pair2⟩ := r
          simp only
          cases hv : readValue pair2 0 with
          | error e3 =>
            simp only
            intro h3
            injection h3 with h3
            rw [h3] at hv
            exact absurd hv (readValue_budget pair2 0)
          | ok vb => simp
      | ok m =>
        simp only
        cases hl : parseLoop fuel (strtok [','] saved).1 (strtok [','] saved).2 with
        | error e =>
          simp only
          intro he
          injection he with he
          rw [he] at hl
          exact ih2 hl
        | ok ms => simp

theorem parseMessage_budget (dataPacket : List Char) (len : Nat) :
    parseMessage dataPacket len ≠ .error .outOfFuel := by
  unfold parseMessage
  apply parseLoop_budget
  intro hne
  obtain ⟨t, ht⟩ := Option.ne_none_iff_exists'.mp hne
  have := strtok_saved_length [','] dataPacket t ht
  omega

/-! ## Theorems: `atof` on decimal text -/

theorem digitChar_facts : ∀ d : Fin 10,
    (digitChar d).isDigit = true ∧ (digitChar d).toNat - 48 = d.val
    ∧ isspace (digitChar d) = false ∧ digitChar d ≠ '-' ∧ digitChar d ≠ '+'
    ∧ digitChar d ≠ NUL ∧ digitChar d ≠ ',' := by
  decide

theorem readDigits_digits (ds : List (Fin 10)) (rest : List Char) (acc n : Nat) :
    readDigits (ds.map digitChar ++ rest) acc n
      = readDigits rest (acc * 10 ^ ds.length + digitsValue ds) (n + ds.length) := by
  induction ds generalizing acc n with
  | nil => simp [digitsValue]
  | cons d ds ih =>
    obtain ⟨h1, h2, -⟩ := digitChar_facts d
    have e1 : (10 * acc + d.val) * 10 ^ ds.length + digitsValue ds
        = acc * 10 ^ (ds.length + 1) + (d.val * 10 ^ ds.length + digitsValue ds) := by ring
    have e2 : n + 1 + ds.length = n + (ds.length + 1) := by omega
    simp only [List.map_cons, List.cons_append, List.length_cons, digitsValue]
    rw [readDigits, if_pos h1, h2, ih, e1, e2]

theorem readDigits_point (rest : List Char) (acc n : Nat) :
    readDigits ('.' :: rest) acc n = (acc, n, '.' :: rest) := by
  simp [readDigits, show ('.' : Char).isDigit = false by decide]

theorem readNumber_decimal (neg : Bool) (d : DecimalText) (hd : d.wellFormed) :
    readNumber neg (d.intPart.map digitChar ++
        (match d.fracPart with
         | none => []
         | some f => '.' :: f.map digitChar))
      = ⟨neg, digitsValue d.intPart * 10 ^ d.fracDigits.length + digitsValue d.fracDigits,
          d.fracDigits.length, 0⟩ := by
  obtain ⟨sg, ip, fp⟩ := d
  cases fp with
  | none =>
    have hip : ip.length ≠ 0 := by
      simpa [DecimalText.wellFormed, DecimalText.fracDigits, Nat.pos_iff_ne_zero] using hd
    have h := readDigits_digits ip [] 0 0
    simp only [readDigits, zero_mul, zero_add, List.append_nil] at h
    simp [readNumber, h, DecimalText.fracDigits, digitsValue, hip]
  | some f =>
    have hlen : ¬ (ip.length + f.length = 0) := by
      have : 0 < ip.length + f.length := by
        simpa [DecimalText.wellFormed, DecimalText.fracDigits] using hd
      omega
    have h := readDigits_digits ip ('.' :: f.map digitChar) 0 0
    simp only [readDigits_point, zero_mul, zero_add] at h
    have h2 := readDigits_digits f [] (digitsValue ip) 0
    simp only [readDigits, zero_add, List.append_nil] at h2
    simp [readNumber, h, h2, DecimalText.fracDigits, hlen, readExponent]

theorem strtodDecimal_text (d : DecimalText) (hd : d.wellFormed) :
    strtodDecimal d.text
      = ⟨d.neg, digitsValue d.intPart * 10 ^ d.fracDigits.length + digitsValue d.fracDigits,
          d.fracDigits.length, 0⟩ := by
  have hnum := fun neg => readNumber_decimal neg d hd
  obtain ⟨sg, ip, fp⟩ := d
  cases sg with
  | true =>
    simp only [DecimalText.text, if_true, List.singleton_append]
    simp only [strtodDecimal, List.dropWhile, show isspace '-' = false by decide]
    simpa using hnum true
  | false =>
    simp only [DecimalText.text, Bool.false_eq_true, if_false, List.nil_append]
    cases ip with
    | cons c ip =>
      obtain ⟨-, -, h3, h4, h5, -⟩ := digitChar_facts c
      have := hnum false
      simp only [List.map_cons, List.cons_append] at this ⊢
      simp only [strtodDecimal, List.dropWhile, h3, h4, h5, if_false]
      exact this
    | nil =>
      cases fp with
      | none => simp [DecimalText.wellFormed, DecimalText.fracDigits] at hd
      | some f =>
        have := hnum false
        simp only [List.map_nil, List.nil_append] at this ⊢
        simp only [strtodDecimal, List.dropWhile, show isspace '.' = false by decide,
          show ('.' : Char) ≠ '-' by decide, show ('.' : Char) ≠ '+' by decide, if_false]
        exact this

theorem atof_text (d : DecimalText) (hd : d.wellFormed) : atof d.text = d.value := by
  rw [atof, strtodDecimal_text d hd]
  simp only [Decimal.toRat, DecimalText.value, zpow_zero, mul_one, Nat.cast_add, Nat.cast_mul,
    Nat.cast_pow, Nat.cast_ofNat]
  have h10 : (10 : ℚ) ^ d.fracDigits.length ≠ 0 := pow_ne_zero _ (by norm_num)
  field_simp

theorem digits_chars (l : List (Fin 10)) :
    ',' ∉ l.map digitChar ∧ NUL ∉ l.map digitChar := by
  constructor
  · intro h
    obtain ⟨x, -, hx⟩ := List.mem_map.mp h
    exact (digitChar_facts x).2.2.2.2.2.2 hx
  · intro h
    obtain ⟨x, -, hx⟩ := List.mem_map.mp h
    exact (digitChar_facts x).2.2.2.2.2.1 hx

theorem text_chars (d : DecimalText) : ',' ∉ d.text ∧ NUL ∉ d.text := by
  have hsign : ',' ∉ (if d.neg then ['-'] else []) ∧ NUL ∉ (if d.neg then ['-'] else []) := by
    cases d.neg <;> decide
  have hint := digits_chars d.intPart
  have hfrac : ',' ∉ (match d.fracPart with
                      | none => []
                      | some f => '.' :: f.map digitChar)
      ∧ NUL ∉ (match d.fracPart with
               | none => []
               | some f => '.' :: f.map digitChar) := by
    cases d.fracPart with
    | none => simp
    | some f =>
      have hf := digits_chars f
      refine ⟨?_, ?_⟩
      · intro h
        rcases List.mem_cons.mp h with h | h
        · exact absurd h (by decide)
        · exact hf.1 h
      · intro h
        rcases List.mem_cons.mp h with h | h
        · exact absurd h (by decide)
        · exact hf.2 h
  unfold DecimalText.text
  refine ⟨?_, ?_⟩
  · intro h
    rcases List.mem_append.mp h with h | h
    · exact hsign.1 h
    · rcases List.mem_append.mp h with h | h
      · exact hint.1 h
      · exact hfrac.1 h
  · intro h
    rcases List.mem_append.mp h with h | h
    · exact hsign.2 h
    · rcases List.mem_append.mp h with h | h
      · exact hint.2 h
      · exact hfrac.2 h

/-! ## Theorems: `decode_data` -/

theorem decode_data_of_parse (p : List Char) (m : Message) (ms : List Message)
    (h : ∀ len, parseMessage p len = .ok (m :: ms)) :
    decode_data p = .ok (some { setpoint := findByKey (m :: ms) "setpoint".toList,
                                P_gain := findByKey (m :: ms) "P".toList,
                                I_gain := findByKey (m :: ms) "I".toList,
                                D_gain := findByKey (m :: ms) "D".toList }) := by
  simp only [decode_data, h]

theorem findByKey_settings (pairs : List (List Char × DecimalText)) (key : List Char)
    (x : DecimalText) (hkey : key.length < MAX_KEY_LEN)
    (hkeys : ∀ kv ∈ pairs, kv.1.length < MAX_KEY_LEN)
    (hmem : (key, x) ∈ pairs) (hone : (pairs.map Prod.fst).count key = 1) :
    findByKey (pairs.map (fun kv => { key := kv.1, value := kv.2.value })) key = x.value := by
  apply findByKey_unique _ _ _ hkey
  · intro m hm
    obtain ⟨kv, hkv, rfl⟩ := List.mem_map.mp hm
    exact hkeys kv hkv
  · exact List.mem_map.mpr ⟨(key, x), hmem, rfl⟩
  · rw [List.map_map]
    exact hone

/-- C6 (settings round trip): a payload that is a comma-separated list of
`key:value` pairs, every key shorter than `MAX_KEY_LEN` and every value a
decimal text shorter than `MAX_VALUE_LEN`, in which each of `setpoint`, `P`,
`I`, `D` is the key of exactly one pair, decodes to a non-null `Data` whose
four fields are the numbers written in those four pairs, whatever the other
pairs are. -/
theorem settings_round_trip (pairs : List (List Char × DecimalText)) (beyond : List Char)
    (sp p i d : DecimalText)
    (hkeys : ∀ kv ∈ pairs, kv.1.length < MAX_KEY_LEN ∧ ':' ∉ kv.1 ∧ ',' ∉ kv.1 ∧ NUL ∉ kv.1)
    (hvals : ∀ kv ∈ pairs, kv.2.wellFormed ∧ kv.2.text.length < MAX_VALUE_LEN)
    (hsp : ("setpoint".toList, sp) ∈ pairs
      ∧ (pairs.map Prod.fst).count "setpoint".toList = 1)
    (hp : ("P".toList, p) ∈ pairs ∧ (pairs.map Prod.fst).count "P".toList = 1)
    (hi : ("I".toList, i) ∈ pairs ∧ (pairs.map Prod.fst).count "I".toList = 1)
    (hd : ("D".toList, d) ∈ pairs ∧ (pairs.map Prod.fst).count "D".toList = 1) :
    decode_data (encodeSettings pairs ++ NUL :: beyond)
      = .ok (some { setpoint := sp.value, P_gain := p.value, I_gain := i.value,
                    D_gain := d.value }) := by
  have hparse : ∀ len, parseMessage (encodeSettings pairs ++ NUL :: beyond) len
      = .ok (pairs.map (fun kv => { key := kv.1, value := kv.2.value })) := by
    intro len
    have h := parseMessage_encodePairs (pairs.map (fun kv => (kv.1, kv.2.text))) beyond len
      (by
        intro kv hkv
        obtain ⟨a, ha, rfl⟩ := List.mem_map.mp hkv
        exact hkeys a ha)
      (by
        intro kv hkv
        obtain ⟨a, ha, rfl⟩ := List.mem_map.mp hkv
        exact ⟨(hvals a ha).2, text_chars a.2⟩)
    rw [encodeSettings, h, List.map_map]
    congr 1
    apply List.map_congr_left
    intro a ha
    simp only [Function.comp, atof_text a.2 (hvals a ha).1]
  have hlen : ∀ kv ∈ pairs, kv.1.length < MAX_KEY_LEN := fun kv hkv => (hkeys kv hkv).1
  cases hps : pairs with
  | nil => rw [hps] at hsp; simp at hsp
  | cons kv rest =>
    rw [← hps]
    have hparse2 : ∀ len, parseMessage (encodeSettings pairs ++ NUL :: beyond) len
        = .ok (({ key := kv.1, value := kv.2.value } : Message)
            :: rest.map (fun kv => { key := kv.1, value := kv.2.value })) := by
      intro len
      rw [hparse len, hps, List.map_cons]
    have hms : (({ key := kv.1, value := kv.2.value } : Message)
          :: rest.map (fun kv => { key := kv.1, value := kv.2.value }))
        = pairs.map (fun kv => { key := kv.1, value := kv.2.value }) := by
      rw [hps, List.map_cons]
    rw [decode_data_of_parse _ _ _ hparse2, hms,
      findByKey_settings pairs _ sp (by decide) hlen hsp.1 hsp.2,
      findByKey_settings pairs _ p (by decide) hlen hp.1 hp.2,
      findByKey_settings pairs _ i (by decide) hlen hi.1 hi.2,
      findByKey_settings pairs _ d (by decide) hlen hd.1 hd.2]

theorem example_values :
    (⟨false, [7, 2], some [5]⟩ : DecimalText).value = 72.5
    ∧ (⟨false, [1, 0], some [0]⟩ : DecimalText).value = 10
    ∧ (⟨false, [2], some [0]⟩ : DecimalText).value = 2
    ∧ (⟨false, [5, 0], some [0]⟩ : DecimalText).value = 50 := by
  have d72 : digitsValue [7, 2] = 72 := by decide
  have d10 : digitsValue [1, 0] = 10 := by decide
  have d50 : digitsValue [5, 0] = 50 := by decide
  have d2 : digitsValue [2] = 2 := by decide
  have d5 : digitsValue [5] = 5 := by decide
  have d0 : digitsValue [0] = 0 := by decide
  refine ⟨?_, ?_, ?_, ?_⟩ <;>
    norm_num [DecimalText.value, DecimalText.fracDigits, d72, d10, d50, d2, d5, d0]

/-- Witness of C6: `setpoint:72.5,P:10.0,I:2.0,D:50.0` decodes to
(72.5, 10.0, 2.0, 50.0), and so does the payload with `foo:1.0` added. -/
theorem settings_round_trip_witness :
    decode_data ("setpoint:72.5,P:10.0,I:2.0,D:50.0".toList ++ [NUL])
        = .ok (some { setpoint := 72.5, P_gain := 10, I_gain := 2, D_gain := 50 })
    ∧ decode_data ("setpoint:72.5,foo:1.0,P:10.0,I:2.0,D:50.0".toList ++ [NUL])
        = .ok (some { setpoint := 72.5, P_gain := 10, I_gain := 2, D_gain := 50 }) := by
  have h1 := settings_round_trip examplePairs [] ⟨false, [7, 2], some [5]⟩
    ⟨false, [1, 0], some [0]⟩ ⟨false, [2], some [0]⟩ ⟨false, [5, 0], some [0]⟩
    (by decide) (by decide) (by decide) (by decide) (by decide) (by decide)
  have h2 := settings_round_trip examplePairsFoo [] ⟨false, [7, 2], some [5]⟩
    ⟨false, [1, 0], some [0]⟩ ⟨false, [2], some [0]⟩ ⟨false, [5, 0], some [0]⟩
    (by decide) (by decide) (by decide) (by decide) (by decide) (by decide)
  have e1 : encodeSettings examplePairs = "setpoint:72.5,P:10.0,I:2.0,D:50.0".toList := by
    decide
  have e2 : encodeSettings examplePairsFoo
      = "setpoint:72.5,foo:1.0,P:10.0,I:2.0,D:50.0".toList := by
    decide
  obtain ⟨v1, v2, v3, v4⟩ := example_values
  rw [e1, v1, v2, v3, v4] at h1
  rw [e2, v1, v2, v3, v4] at h2
  exact ⟨h1, h2⟩

/-- C7: on the payload `setpoint:55.0,P:45.0,I:10.0,D:300.0` of the
specification, `processPair` is handed the pair `D:300.0`, whose value has
`MAX_VALUE_LEN` characters, and the write of its terminator falls outside
`valueBuf`; the payload is not decoded. -/
theorem example_payload_overflows_valueBuf :
    "300.0".toList.length = MAX_VALUE_LEN
    ∧ readValue ("300.0".toList ++ [NUL]) 0 = .error .valueOverflow
    ∧ processPair ("D:300.0".toList ++ [NUL]) = .error .valueOverflow
    ∧ decode_data ("setpoint:55.0,P:45.0,I:10.0,D:300.0".toList ++ [NUL])
        = .error .valueOverflow :=
  ⟨rfl, rfl, rfl, rfl⟩

/-! ## Theorems: `decodeCommand` and its caller -/

theorem decodeCommand_split (CMD_LEN ARG_LEN : Nat) (name arg tail : List Char)
    (hname : name ≠ [] ∧ ':' ∉ name ∧ NUL ∉ name)
    (harg : arg ≠ [] ∧ '&' ∉ arg ∧ '\n' ∉ arg ∧ NUL ∉ arg)
    (htail : ∃ t rest, tail = t :: rest ∧ (t = '&' ∨ t = '\n' ∨ t = NUL)) :
    decodeCommand CMD_LEN ARG_LEN (name ++ ':' :: (arg ++ tail))
      = .ok { cmd := name.take CMD_LEN ++ List.replicate (CMD_LEN - name.length) NUL,
              arg := arg.take ARG_LEN ++ List.replicate (ARG_LEN - arg.length) NUL } := by
  obtain ⟨t, rest, rfl, ht⟩ := htail
  have hn : ∀ c ∈ name, c ≠ NUL ∧ c ∉ [':'] := fun c hc =>
    ⟨fun h => hname.2.2 (h ▸ hc), by rw [List.mem_singleton]; intro h; exact hname.2.1 (h ▸ hc)⟩
  have ha : ∀ c ∈ arg, c ≠ NUL ∧ c ∉ ['&', '\n'] := fun c hc =>
    ⟨fun h => harg.2.2.2 (h ▸ hc), by
      intro h
      rcases List.mem_cons.mp h with h | h
      · exact harg.2.1 (h ▸ hc)
      · rw [List.mem_singleton] at h; exact harg.2.2.1 (h ▸ hc)⟩
  have h1 := strtok_delim [':'] name (arg ++ t :: rest) ':' hname.1 hn (by simp) (by decide)
  have h2 : ∃ saved, strtok ['&', '\n'] (arg ++ t :: rest) = (some (arg ++ NUL :: rest), saved) := by
    rcases ht with ht | ht | ht
    · exact ⟨rest, by rw [ht]; exact strtok_delim _ arg rest '&' harg.1 ha (by simp) (by decide)⟩
    · exact ⟨rest, by rw [ht]; exact strtok_delim _ arg rest '\n' harg.1 ha (by simp) (by decide)⟩
    · exact ⟨NUL :: rest, by rw [ht]; exact strtok_last _ arg rest harg.1 ha⟩
  obtain ⟨saved, h2⟩ := h2
  simp only [decodeCommand, h1, h2, strncpyPtr, strncpy_cstr name _ CMD_LEN hname.2.2,
    strncpy_cstr arg _ ARG_LEN harg.2.2.2]

theorem padded_field (s : List Char) (n : Nat) (hs : NUL ∉ s) (hlen : s.length < n) :
    cstr (s.take n ++ List.replicate (n - s.length) NUL) = s
    ∧ (s.take n ++ List.replicate (n - s.length) NUL).length = n := by
  rw [List.take_of_length_le (le_of_lt hlen)]
  refine ⟨cstr_padded s _ hs, ?_⟩
  simp only [List.length_append, List.length_replicate]
  omega

/-- C8: for a command payload `NAME:ARG&REST` with `NAME` non-empty, free of
`:` and shorter than `CMD_LEN`, and `ARG` non-empty, free of `&` and newline
and shorter than `ARG_LEN`, `decodeCommand` returns a `Cmd_t` whose `cmd`
field holds the string `NAME` and whose `arg` field holds the string `ARG`. -/
theorem decodeCommand_name_arg (CMD_LEN ARG_LEN : Nat) (name arg rest beyond : List Char)
    (hname : name ≠ [] ∧ ':' ∉ name ∧ NUL ∉ name ∧ name.length < CMD_LEN)
    (harg : arg ≠ [] ∧ '&' ∉ arg ∧ '\n' ∉ arg ∧ NUL ∉ arg ∧ arg.length < ARG_LEN) :
    ∃ c : Cmd_t,
      decodeCommand CMD_LEN ARG_LEN (name ++ ':' :: (arg ++ '&' :: (rest ++ NUL :: beyond)))
        = .ok c
      ∧ cstr c.cmd = name ∧ cstr c.arg = arg
      ∧ c.cmd.length = CMD_LEN ∧ c.arg.length = ARG_LEN := by
  have h := decodeCommand_split CMD_LEN ARG_LEN name arg ('&' :: (rest ++ NUL :: beyond))
    ⟨hname.1, hname.2.1, hname.2.2.1⟩ ⟨harg.1, harg.2.1, harg.2.2.1, harg.2.2.2.1⟩
    ⟨'&', _, rfl, Or.inl rfl⟩
  have hc := padded_field name CMD_LEN hname.2.2.1 hname.2.2.2
  have ha := padded_field arg ARG_LEN harg.2.2.2.1 harg.2.2.2.2
  exact ⟨_, h, hc.1, ha.1, hc.2, ha.2⟩

/-- Witness of C8: `OTA:10.0.0.5&` yields the command name `OTA` and the
argument `10.0.0.5`, here with 16-byte fields. -/
theorem decodeCommand_name_arg_witness :
    ∃ c : Cmd_t,
      decodeCommand 16 16 ("OTA:10.0.0.5&".toList ++ [NUL]) = .ok c
      ∧ cstr c.cmd = "OTA".toList ∧ cstr c.arg = "10.0.0.5".toList
      ∧ c.cmd.length = 16 ∧ c.arg.length = 16 :=
  decodeCommand_name_arg 16 16 "OTA".toList "10.0.0.5".toList [] []
    (by decide) (by decide)

/-- C9, the claim refuted: the payload `OTA:10.0.0.5`, which lacks `&`, is a
decode failure for no field sizes, and with 16-byte fields `myWebsocketRecv`
starts the OTA update with the address `10.0.0.5`. -/
theorem decodeCommand_missing_amp_dispatched :
    (¬ ∃ (CMD_LEN ARG_LEN : Nat) (e : Fault),
        decodeCommand CMD_LEN ARG_LEN ("OTA:10.0.0.5".toList ++ [NUL]) = .error e)
    ∧ '&' ∉ "OTA:10.0.0.5".toList
    ∧ recvCmd 16 16 ("OTA:10.0.0.5".toList ++ [NUL]) = .ok (.ota "10.0.0.5".toList) := by
  refine ⟨?_, by decide, rfl⟩
  rintro ⟨n, m, e, he⟩
  have h := decodeCommand_split n m "OTA".toList "10.0.0.5".toList [NUL]
    (by decide) (by decide) ⟨NUL, [], rfl, Or.inr (Or.inr rfl)⟩
  have e1 : "OTA".toList ++ ':' :: ("10.0.0.5".toList ++ [NUL])
      = "OTA:10.0.0.5".toList ++ [NUL] := by decide
  rw [e1, he] at h
  cases h

/-- C9 as amended: a command payload `NAME:ARG` that lacks `&` (`NAME`
non-empty, free of `:` and shorter than `CMD_LEN`; `ARG` non-empty, free of `&`
and newline and shorter than `ARG_LEN`) is decoded like one with `&`:
`decodeCommand` returns the populated command (`NAME`, `ARG`), and
`myWebsocketRecv` dispatches it, to the OTA update when `NAME` is `OTA` and to
the controller otherwise. -/
theorem decodeCommand_without_amp (CMD_LEN ARG_LEN : Nat) (name arg beyond : List Char)
    (hname : name ≠ [] ∧ ':' ∉ name ∧ NUL ∉ name ∧ name.length < CMD_LEN)
    (harg : arg ≠ [] ∧ '&' ∉ arg ∧ '\n' ∉ arg ∧ NUL ∉ arg ∧ arg.length < ARG_LEN) :
    ∃ c : Cmd_t,
      decodeCommand CMD_LEN ARG_LEN (name ++ ':' :: (arg ++ NUL :: beyond)) = .ok c
      ∧ cstr c.cmd = name ∧ cstr c.arg = arg
      ∧ recvCmd CMD_LEN ARG_LEN (name ++ ':' :: (arg ++ NUL :: beyond))
          = .ok (if strncmpEq name "OTA".toList 16 then Dispatch.ota arg
                 else Dispatch.controller c) := by
  have h := decodeCommand_split CMD_LEN ARG_LEN name arg (NUL :: beyond)
    ⟨hname.1, hname.2.1, hname.2.2.1⟩ ⟨harg.1, harg.2.1, harg.2.2.1, harg.2.2.2.1⟩
    ⟨NUL, _, rfl, Or.inr (Or.inr rfl)⟩
  have hc := padded_field name CMD_LEN hname.2.2.1 hname.2.2.2
  have ha := padded_field arg ARG_LEN harg.2.2.2.1 harg.2.2.2.2
  refine ⟨_, h, hc.1, ha.1, ?_⟩
  simp only [recvCmd, h, hc.1, ha.1]
  split_ifs <;> rfl

/-- Witness of C9 as amended: `FLUSH:1` without `&` is decoded and sent to the
controller. -/
theorem decodeCommand_without_amp_witness :
    ∃ c : Cmd_t,
      decodeCommand 16 16 ("FLUSH:1".toList ++ [NUL]) = .ok c
      ∧ cstr c.cmd = "FLUSH".toList ∧ cstr c.arg = "1".toList
      ∧ recvCmd 16 16 ("FLUSH:1".toList ++ [NUL])
          = .ok (if strncmpEq "FLUSH".toList "OTA".toList 16 then Dispatch.ota "1".toList
                 else Dispatch.controller c) :=
  decodeCommand_without_amp 16 16 "FLUSH".toList "1".toList []
    (by decide) (by decide)

/-! ## Theorems: sensors.c -/

theorem flowmeter_stale (t v : ℚ) (ht : 1 < t) : flowmeter_task_iter t v = some 0 := by
  simp [flowmeter_task_iter, ht]

theorem flowmeter_fresh (t v : ℚ) (ht : t ≤ 1) (hv : 0 < v) :
    flowmeter_task_iter t v = some (1 / (75 / 10 * v)) ∧ (0 : ℚ) < 1 / (75 / 10 * v) := by
  have h1 : ¬ (1 < t) := not_lt.mpr ht
  have h2 : v * (75 / 10) ≠ 0 := by positivity
  refine ⟨?_, by positivity⟩
  simp only [flowmeter_task_iter, gt_iff_lt, h1, if_false, h2]
  rw [mul_comm]

/-- C10: with the timer at half a second and the stored interval still at its
initial value 0 (no pulse yet), the timer reading is inside the freshness
window and `flowmeter_task` divides by `0 * 7.5`: there is no rate
`1 / (7.5 * v)` to publish, let alone a strictly positive one. -/
theorem flowmeter_divides_by_zero_before_first_pulse :
    ¬ ((1 / 2 : ℚ) > 1) ∧ timeVal_init * (75 / 10) = 0
    ∧ flowmeter_task_iter (1 / 2) timeVal_init = none := by
  refine ⟨by norm_num, by norm_num [timeVal_init], ?_⟩
  norm_num [flowmeter_task_iter, timeVal_init]

/-! ## Theorems: `controller_init` -/

theorem period_floor (f : Nat) : ⌊(1 / (f : ℚ) * 1000)⌋₊ = 1000 / f := by
  have h : (1 / (f : ℚ) * 1000) = ((1000 : ℕ) : ℚ) / (f : ℚ) := by
    push_cast; ring
  rw [h, Nat.floor_div_eq_div]

theorem controller_init_period_of_fits (f : Nat) (h4 : 4 ≤ f) :
    controller_init_period f = some (1000 / f) := by
  have hf : f ≠ 0 := by omega
  have hpos : ¬ ((1 / (f : ℚ) * 1000) ≤ -1) := by
    have : (0 : ℚ) ≤ 1 / (f : ℚ) * 1000 := by positivity
    linarith
  have hlt : 1000 / f < 256 := by
    apply Nat.div_lt_of_lt_mul
    omega
  simp only [controller_init_period, hf, if_false, toUint8, hpos, period_floor, hlt, if_true]

theorem controller_init_period_of_overflow (f : Nat) (h1 : 1 ≤ f) (h3 : f ≤ 3) :
    controller_init_period f = none := by
  have hf : f ≠ 0 := by omega
  have hge : ¬ (1000 / f < 256) := by
    have : 256 ≤ 1000 / f := by
      rw [Nat.le_div_iff_mul_le (by omega)]
      interval_cases f <;> omega
    omega
  simp only [controller_init_period, hf, if_false, toUint8, period_floor, hge]
  split_ifs <;> rfl

/-- C11: for the frequencies 1, 2 and 3 the period `1000 / f` is 1000, 500
and 333 ms, none of which is a value of the 8-bit `ctrl_loop_period_ms`, and
the conversion that `controller_init` performs is out of range; from the
frequency 4 on (250 ms) the stored period is `1000 / f` rounded down. -/
theorem period_overflows_uint8 :
    controller_init_period 1 = none ∧ controller_init_period 2 = none
    ∧ controller_init_period 3 = none
    ∧ (¬ ∃ v : Nat, v < 256 ∧ (v = 1000 / 1 ∨ v = 1000 / 2 ∨ v = 1000 / 3))
    ∧ controller_init_period 4 = some 250 ∧ controller_init_period 255 = some 3 := by
  refine ⟨controller_init_period_of_overflow 1 (by omega) (by omega),
    controller_init_period_of_overflow 2 (by omega) (by omega),
    controller_init_period_of_overflow 3 (by omega) (by omega), ?_,
    controller_init_period_of_fits 4 (by omega), controller_init_period_of_fits 255 (by omega)⟩
  rintro ⟨v, hv, h⟩
  omega


/-! ## Theorems: the end-to-end scenario -/

theorem scenario_values :
    (iterations 60 6 initState).map (fun r => r.2.error) = [10, 10, 10, 10, 10, 10]
    ∧ (iterations 60 6 initState).map (fun r => r.2.derivative) = [50, 0, 0, 0, 0, 0]
    ∧ (iterations 60 6 initState).map (fun r => r.1.integral) = [1, 1, 2, 3, 4, 5]
    ∧ (iterations 60 6 initState).map (fun r => r.2.pid) = [15460, 460, 470, 480, 490, 500]
    ∧ (iterations 60 6 initState).map (fun r => r.2.emitted)
        = [8190, 1350, 1350, 1350, 1350, 1350] := by
  refine ⟨?_, ?_, ?_, ?_, ?_⟩ <;>
    norm_num [iterations, control_loop_iter, recvSettings, initState, defaultSettings,
      get_temp, integrate, clip, SENSOR_MIN_OUTPUT, SENSOR_MAX_OUTPUT]

/-- C12, the claim refuted: in the scenario the second iteration leaves the
integral at 1 (the stored output is at MAX, so the accumulation is skipped)
and emits 1350 after the 8190 of the first iteration; the integral does not
strictly increase on every iteration after the first, and the output
decreases. -/
theorem scenario_as_specified_fails :
    ¬ ScenarioAsSpecified
    ∧ ¬ List.Chain' (fun a b => a < b)
          ((iterations 60 6 initState).map (fun r => r.1.integral))
    ∧ ¬ List.Chain' (fun a b => a ≤ b)
          ((iterations 60 6 initState).map (fun r => r.2.emitted)) := by
  obtain ⟨-, -, hi, -, he⟩ := scenario_values
  have h1 : ¬ List.Chain' (fun a b => a < b)
      ((iterations 60 6 initState).map (fun r => r.1.integral)) := by
    rw [hi]; norm_num [List.Chain']
  have h2 : ¬ List.Chain' (fun a b => a ≤ b)
      ((iterations 60 6 initState).map (fun r => r.2.emitted)) := by
    rw [he]; norm_num [List.Chain']
  exact ⟨fun h => h1 h.2.2.1, h1, h2⟩

/-- C12 as amended: over the first six iterations from the initial state with
the hot side at 60, the error is 10 on every iteration; the derivative is zero
on every iteration after the first; the integral never decreases and strictly
increases on every iteration after the second, while the second iteration,
which starts with the stored output at `SENSOR_MAX_OUTPUT`, leaves it as it
was; the emitted output falls from `SENSOR_MAX_OUTPUT` on the first iteration
to `SENSOR_MIN_OUTPUT` on the second and never decreases from one iteration to
the next after that. -/
theorem scenario_as_run :
    (iterations 60 6 initState).map (fun r => r.2.error) = List.replicate 6 10
    ∧ ((iterations 60 6 initState).map (fun r => r.2.derivative)).tail = List.replicate 5 0
    ∧ List.Chain' (fun a b => a ≤ b)
        ((iterations 60 6 initState).map (fun r => r.1.integral))
    ∧ List.Chain' (fun a b => a < b)
        ((iterations 60 6 initState).map (fun r => r.1.integral)).tail
    ∧ ((iterations 60 6 initState).map (fun r => r.1.output)).head? = some SENSOR_MAX_OUTPUT
    ∧ (∃ i : ℚ, ((iterations 60 6 initState).map (fun r => r.1.integral)).take 2 = [i, i])
    ∧ ((iterations 60 6 initState).map (fun r => r.2.emitted)).take 2
        = [SENSOR_MAX_OUTPUT, SENSOR_MIN_OUTPUT]
    ∧ List.Chain' (fun a b => a ≤ b)
        ((iterations 60 6 initState).map (fun r => r.2.emitted)).tail := by
  obtain ⟨herr, hder, hint, -, hemit⟩ := scenario_values
  have hout : ((iterations 60 6 initState).map (fun r => r.1.output)).head?
      = some SENSOR_MAX_OUTPUT := by
    norm_num [iterations, control_loop_iter, recvSettings, initState, defaultSettings,
      get_temp, integrate, clip, SENSOR_MIN_OUTPUT, SENSOR_MAX_OUTPUT]
  rw [herr, hder, hint, hemit]
  refine ⟨by simp [List.replicate], by simp [List.replicate], ?_, ?_, hout, ⟨1, rfl⟩, ?_, ?_⟩
  · norm_num [List.Chain']
  · norm_num [List.Chain']
  · simp [SENSOR_MAX_OUTPUT, SENSOR_MIN_OUTPUT]
  · norm_num [List.Chain']

/-! ## Theorems: a settings payload without one of the keys -/

theorem findByKey_missing (ms : List Message) (key : List Char)
    (hkey : key.length < MAX_KEY_LEN) (hks : ∀ m ∈ ms, m.key.length < MAX_KEY_LEN)
    (hmiss : key ∉ ms.map (fun m => m.key)) : findByKey ms key = 0 := by
  induction ms with
  | nil => rfl
  | cons m ms ih =>
    have hm := hks m (List.mem_cons_self _ _)
    have hne : key ≠ m.key := fun h => hmiss (by simp [h])
    have hrest : key ∉ ms.map (fun m => m.key) := fun h => hmiss (by simp [h])
    simp only [findByKey, strncmpEq_short key m.key hkey hm, hne, decide_False,
      Bool.false_eq_true, if_false]
    exact ih (fun m hm => hks m (List.mem_cons_of_mem _ hm)) hrest

theorem decode_data_field (ms : List Message) (m : Message) (k : SettingKey) :
    ({ setpoint := findByKey (m :: ms) "setpoint".toList,
       P_gain := findByKey (m :: ms) "P".toList,
       I_gain := findByKey (m :: ms) "I".toList,
       D_gain := findByKey (m :: ms) "D".toList } : Data).field k
      = findByKey (m :: ms) k.name := by
  cases k <;> rfl

theorem iter_receives (s : CtrlState) (d : Data) (rest : List Data) (c h : Option ℚ)
    (hq : s.dataQueue = d :: rest) : (control_loop_iter s c h).1.controllerSettings = d := by
  simp [control_loop_iter, recvSettings, hq]

/-- C13, the claim refuted: the payloads `,` and `P:45.0,I:10.0,D:300.0` are
not empty and hold no `setpoint`, yet `decode_data` returns no `Data` for
them: for the first, which holds no pair, it returns the null pointer; for the
second, `processPair` writes past `valueBuf`. -/
theorem payload_without_data :
    ",".toList ≠ [] ∧ decode_data (",".toList ++ [NUL]) = .ok none
    ∧ "setpoint".toList ∉ ["P".toList, "I".toList, "D".toList]
    ∧ decode_data ("P:45.0,I:10.0,D:300.0".toList ++ [NUL]) = .error .valueOverflow :=
  ⟨by decide, rfl, by decide, rfl⟩

/-- C13 as amended: a settings payload of at least one `key:value` pair, every
key shorter than `MAX_KEY_LEN` and every value shorter than `MAX_VALUE_LEN`,
in which one of the keys `setpoint`, `P`, `I`, `D` does not occur decodes to a
non-null `Data` whose field for that key is 0; and when `control_loop`
receives this `Data` from the settings queue, its `controllerSettings` become
this `Data`, so the field is 0 whatever value was held before. -/
theorem missing_key_overwritten_with_zero (pairs : List (List Char × List Char))
    (beyond : List Char) (k : SettingKey) (hne : pairs ≠ [])
    (hkeys : ∀ kv ∈ pairs, kv.1.length < MAX_KEY_LEN ∧ ':' ∉ kv.1 ∧ ',' ∉ kv.1 ∧ NUL ∉ kv.1)
    (hvals : ∀ kv ∈ pairs, kv.2.length < MAX_VALUE_LEN ∧ ',' ∉ kv.2 ∧ NUL ∉ kv.2)
    (hmiss : k.name ∉ pairs.map Prod.fst) :
    ∃ d : Data,
      decode_data (encodePairs pairs ++ NUL :: beyond) = .ok (some d)
      ∧ d.field k = 0
      ∧ ∀ (s : CtrlState) (rest : List Data) (coldRecv hotRecv : Option ℚ),
          s.dataQueue = d :: rest →
            (control_loop_iter s coldRecv hotRecv).1.controllerSettings = d
            ∧ (control_loop_iter s coldRecv hotRecv).1.controllerSettings.field k = 0 := by
  have hparse := fun len => parseMessage_encodePairs pairs beyond len hkeys hvals
  cases hps : pairs with
  | nil => exact absurd hps hne
  | cons kv rest =>
    have hparse2 : ∀ len, parseMessage (encodePairs pairs ++ NUL :: beyond) len
        = .ok (({ key := kv.1, value := atof kv.2 } : Message)
            :: rest.map (fun kv => { key := kv.1, value := atof kv.2 })) := by
      intro len
      rw [hparse len, hps, List.map_cons]
    have hms : (({ key := kv.1, value := atof kv.2 } : Message)
          :: rest.map (fun kv => { key := kv.1, value := atof kv.2 }))
        = pairs.map (fun kv => { key := kv.1, value := atof kv.2 }) := by
      rw [hps, List.map_cons]
    have hzero : findByKey (pairs.map (fun kv => ({ key := kv.1, value := atof kv.2 } : Message)))
        k.name = 0 := by
      apply findByKey_missing
      · cases k <;> decide
      · intro m hm
        obtain ⟨a, ha, rfl⟩ := List.mem_map.mp hm
        exact (hkeys a ha).1
      · rw [List.map_map]
        exact hmiss
    have hfield := decode_data_field (rest.map (fun kv => { key := kv.1, value := atof kv.2 }))
      { key := kv.1, value := atof kv.2 } k
    rw [hms, hzero] at hfield
    rw [← hps]
    refine ⟨_, decode_data_of_parse _ _ _ hparse2, ?_, ?_⟩
    · rw [hms]; exact hfield
    · intro s q c h hq
      have hrecv := iter_receives s _ q c h hq
      refine ⟨hrecv, ?_⟩
      rw [hrecv, hms]
      exact hfield

/-- Witness of C13 as amended: the payload `P:45.0,I:10.0` has no `setpoint`; the decoded
`Data` has setpoint 0, and a controller holding the default setpoint 50
holds the setpoint 0 after the iteration that receives it. -/
theorem missing_key_overwritten_with_zero_witness :
    ∃ d : Data,
      decode_data ("P:45.0,I:10.0".toList ++ [NUL]) = .ok (some d)
      ∧ d.setpoint = 0
      ∧ initState.controllerSettings.setpoint = 50
      ∧ (control_loop_iter (sendSettings initState d) none none).1.controllerSettings.setpoint
          = 0 := by
  obtain ⟨d, hd, h0, hiter⟩ := missing_key_overwritten_with_zero
    [("P".toList, "45.0".toList), ("I".toList, "10.0".toList)] [] SettingKey.setpoint
    (by decide) (by decide) (by decide) (by decide)
  refine ⟨d, ?_, h0, rfl, ?_⟩
  · have e : encodePairs [("P".toList, "45.0".toList), ("I".toList, "10.0".toList)]
        = "P:45.0,I:10.0".toList := by decide
    rw [← e]; exact hd
  · exact (hiter (sendSettings initState d) [] none none rfl).2

/-! ## Theorems: `control_loop` with the special values of floating point -/

theorem clipF_fin (x : ℚ) : clipF (FP.fin x) = FP.fin (clip x) := by
  unfold clipF clip
  simp only [FP.lt, decide_eq_true_eq, gt_iff_lt]
  split_ifs <;> rfl

theorem integrateF_fin (o e i : ℚ) :
    integrateF (FP.fin o) (FP.fin e) (FP.fin i) = FP.fin (integrate o e i) := by
  unfold integrateF integrate
  simp only [FP.lt, Bool.and_eq_true, decide_eq_true_eq, gt_iff_lt, FP.add, FP.mul]
  split_ifs <;> rfl

theorem recvSettingsF_toF (s : CtrlState) : recvSettingsF s.toF = (recvSettings s).toF := by
  obtain ⟨cs, fl, o, le, i, q, hc, cc⟩ := s
  cases q <;> rfl

theorem get_tempF_fin (cache : ℚ) (recv : Option ℚ) :
    get_tempF (FP.fin cache) (recv.map FP.fin) = FP.fin (get_temp cache recv) := by
  cases recv <;> rfl

/-- On finite values the loop with special values is the loop over the
rationals. -/
theorem control_loop_iterF_toF (s : CtrlState) (coldRecv hotRecv : Option ℚ) :
    control_loop_iterF s.toF (coldRecv.map FP.fin) (hotRecv.map FP.fin)
      = ((control_loop_iter s coldRecv hotRecv).1.toF,
         FP.fin (control_loop_iter s coldRecv hotRecv).2.emitted) := by
  unfold control_loop_iterF
  rw [recvSettingsF_toF]
  simp only [CtrlState.toF, Data.toF, get_tempF_fin, FP.sub, FP.neg, FP.add, FP.mul, FP.divBy,
    integrateF_fin, clipF_fin, control_loop_iter, sub_eq_add_neg]
  split_ifs <;> rfl

/-- C2: a settings update whose `P_gain` is NaN, or is infinite while the hot
side is at the setpoint (error 0, and infinity times 0 is NaN), makes the PID
sum NaN; NaN passes both tests of the clip statement, so `set_motor_speed`
receives NaN, which is not a value in `[1350, 8190]`. -/
theorem nan_passes_the_clip :
    clipF FP.nan = FP.nan
    ∧ (control_loop_iterF
          (sendSettingsF initState.toF ⟨FP.fin 50, FP.pinf, FP.fin 10, FP.fin 300⟩)
          none (some (FP.fin 50))).2 = FP.nan
    ∧ (control_loop_iterF
          (sendSettingsF initState.toF ⟨FP.fin 50, FP.nan, FP.fin 10, FP.fin 300⟩)
          none (some (FP.fin 60))).2 = FP.nan
    ∧ ¬ FP.inRange 1350 8190 FP.nan := by
  refine ⟨rfl, ?_, ?_, ?_⟩
  · norm_num [control_loop_iterF, sendSettingsF, recvSettingsF, CtrlState.toF, initState,
      get_tempF, FP.sub, FP.neg, FP.add, FP.mul, FP.infTimes]
    rfl
  · norm_num [control_loop_iterF, sendSettingsF, recvSettingsF, CtrlState.toF, initState,
      get_tempF, FP.sub, FP.neg, FP.add, FP.mul]
    rfl
  · rintro ⟨q, hq, -⟩
    cases hq

end Distiller
